import Mathlib

/-!
Verification development for the META II style meta-compiler toolkit
(MVM recognizer/translator, shared assembler/loader, mini lexer, and the
hand-coded bootstrap translator).  The Rust sources are shallowly embedded:
strings are lists of characters, the byte position is a natural number
(inputs are ASCII, so byte offsets and character offsets coincide), and
operations that can panic return Option.
-/

set_option maxRecDepth 4000

/-- The single-quote character, used by the SR primitive and the lexer. -/
def quoteChar : Char := Char.ofNat 39

/-- ASCII whitespace as in char::is_ascii_whitespace
(space, tab, newline, form feed, carriage return). -/
def isAsciiWs (c : Char) : Bool :=
  c = ' ' || c = Char.ofNat 9 || c = Char.ofNat 10 || c = Char.ofNat 12 || c = Char.ofNat 13

/-- ASCII digit test, as in char::is_ascii_digit. -/
def isAsciiDigit (c : Char) : Bool :=
  48 ≤ c.toNat && c.toNat ≤ 57

/-- ASCII letter test, as in char::is_ascii_alphabetic. -/
def isAsciiAlpha (c : Char) : Bool :=
  (65 ≤ c.toNat && c.toNat ≤ 90) || (97 ≤ c.toNat && c.toNat ≤ 122)

/-- ASCII alphanumeric test, as in char::is_ascii_alphanumeric. -/
def isAsciiAlnum (c : Char) : Bool :=
  isAsciiAlpha c || isAsciiDigit c

/-- Zero-padded three-digit rendering of a counter, as in format A{:03}. -/
def pad3 (n : Nat) : String :=
  if n < 10 then "00" ++ toString n
  else if n < 100 then "0" ++ toString n
  else toString n

/-- An A-label as generated by GN1. -/
def fmtA (n : Nat) : String := "A" ++ pad3 n

/-- A B-label as generated by GN2. -/
def fmtB (n : Nat) : String := "B" ++ pad3 n

/-- One frame of the MVM recursion/label stack (enum MStackVal). -/
inductive MStackVal where
  | Lb (s : String)
  | Back (ric : Nat) (blanks : Bool)
deriving DecidableEq, Repr

/-- The MVM runtime state (struct M).  The stack is kept top-first.
a_cnt and b_cnt are u16 in the source; every update takes them modulo
2^16 (the wrapping release-profile semantics). -/
structure MState where
  input : List Char
  pos : Nat
  sw : Bool
  last : List Char
  a_cnt : Nat
  b_cnt : Nat
  output : String
  stk : List MStackVal
deriving DecidableEq, Repr

/-- M::new. -/
def mInit (input : String) : MState :=
  { input := input.data, pos := 0, sw := false, last := [],
    a_cnt := 0, b_cnt := 0, output := "        ", stk := [] }

/-- Length of the leading ASCII-whitespace run. -/
def wsRun : List Char → Nat
  | [] => 0
  | c :: cs => if isAsciiWs c then wsRun cs + 1 else 0

/-- M::eat_ws: advance pos past leading ASCII whitespace. -/
def eatWs (m : MState) : MState :=
  { m with pos := m.pos + wsRun (m.input.drop m.pos) }

/-- The body of M::tst after the whitespace skip. -/
def tstAt (m : MState) (s : List Char) : MState :=
  if (m.input.drop m.pos).take s.length = s then
    { m with pos := m.pos + s.length,
             last := (m.input.drop m.pos).take s.length,
             sw := true }
  else { m with sw := false }

/-- M::tst: literal match after whitespace skipping.  Note that the
whitespace skip moves pos even when the match fails. -/
def tstOp (m : MState) (s : List Char) : MState := tstAt (eatWs m) s

/-- The identifier token: a run of alphanumerics (the scan is only entered
when the first character is a letter). -/
def idTok (rest : List Char) : List Char := rest.takeWhile isAsciiAlnum

/-- The body of M::id after the whitespace skip. -/
def idAt (m : MState) : MState :=
  match m.input.drop m.pos with
  | [] => { m with sw := false }
  | c :: _ =>
    if isAsciiAlpha c then
      { m with sw := true,
               pos := m.pos + (idTok (m.input.drop m.pos)).length,
               last := idTok (m.input.drop m.pos) }
    else { m with sw := false }

/-- M::id: scan an identifier (letter then alphanumerics). -/
def idOp (m : MState) : MState := idAt (eatWs m)

/-- Adjacent-dots test (str::contains applied to two dots). -/
def hasDotDot : List Char → Bool
  | c1 :: c2 :: rest => (c1 = '.' && c2 = '.') || hasDotDot (c2 :: rest)
  | _ => false

/-- The number scan: a run of digits and dots. -/
def numTok (rest : List Char) : List Char :=
  rest.takeWhile (fun c2 => c2 = '.' || isAsciiDigit c2)

/-- The body of M::num after the whitespace skip: scan a run of digits and
dots, then reject a trailing dot or adjacent dots; pos is advanced only on
acceptance. -/
def numAt (m : MState) : MState :=
  match m.input.drop m.pos with
  | [] => { m with sw := false }
  | c :: _ =>
    if isAsciiDigit c then
      if (numTok (m.input.drop m.pos)).getLast? = some '.' ||
          hasDotDot (numTok (m.input.drop m.pos)) then
        { m with sw := false }
      else
        { m with sw := true,
                 pos := m.pos + (numTok (m.input.drop m.pos)).length,
                 last := numTok (m.input.drop m.pos) }
    else { m with sw := false }

/-- M::num. -/
def numOp (m : MState) : MState := numAt (eatWs m)

/-- True of characters other than the single quote. -/
def notQuote (c : Char) : Bool := c ≠ quoteChar

/-- The string token scanned by M::sr from the characters after the
opening quote: everything up to the next quote, including that quote when
present, with the opening quote prepended. -/
def srTok (rest1 : List Char) : List Char :=
  if (rest1.takeWhile notQuote).length < rest1.length
  then quoteChar :: (rest1.takeWhile notQuote ++ [quoteChar])
  else quoteChar :: rest1.takeWhile notQuote

/-- The body of M::sr after the whitespace skip; the token is accepted
when it ends with a quote. -/
def srAt (m : MState) : MState :=
  match m.input.drop m.pos with
  | [] => { m with sw := false }
  | c :: rest1 =>
    if c = quoteChar then
      if (srTok rest1).getLast? = some quoteChar then
        { m with sw := true, last := srTok rest1,
                 pos := m.pos + (srTok rest1).length }
      else { m with sw := false }
    else { m with sw := false }

/-- M::sr: scan a quoted string; the quotes are part of last. -/
def srOp (m : MState) : MState := srAt (eatWs m)

/-- The collapse step at the start of M::cll: when the two frames atop the
stack are both empty label slots they are consumed and the blanks flag is
set. -/
def cllCollapse : List MStackVal → Bool × List MStackVal
  | MStackVal.Lb l2 :: MStackVal.Lb l1 :: rest =>
    if l2 = "" ∧ l1 = "" then (true, rest)
    else (false, MStackVal.Lb l2 :: MStackVal.Lb l1 :: rest)
  | stk => (false, stk)

/-- M::cll: push a return marker and two fresh empty label slots. -/
def cllOp (m : MState) (ric : Nat) : MState :=
  { m with stk := MStackVal.Lb "" :: MStackVal.Lb "" ::
      MStackVal.Back ric (cllCollapse m.stk).1 :: (cllCollapse m.stk).2 }

/-- M::r: pop the top three frames (the third from the top must be a
return marker); when the marker carries the blanks flag, push back two
empty label slots.  Returns the recorded return index; none models the
unmatched-return panic. -/
def rOp (m : MState) : Option (MState × Nat) :=
  match m.stk with
  | _ :: _ :: MStackVal.Back ric blanks :: rest =>
    some ({ m with stk :=
              if blanks then MStackVal.Lb "" :: MStackVal.Lb "" :: rest else rest },
          ric)
  | _ => none

/-- M::set. -/
def setOp (m : MState) : MState := { m with sw := true }

/-- M::cl: append the string then a single space to the output buffer. -/
def clOp (m : MState) (s : String) : MState :=
  { m with output := m.output ++ s ++ " " }

/-- M::ci: append last (when the switch is on). -/
def ciOp (m : MState) : MState :=
  if m.sw then { m with output := m.output ++ String.mk m.last } else m

/-- M::gn1: consult the A-slot (second frame from the top); materialize a
fresh A-label from a_cnt when the slot is empty; emit the slot value and a
space.  a_cnt is a u16 in the source, so the increment wraps modulo 2^16.
Returns the emitted label; none models the malformed-stack panic. -/
def gn1Op (m : MState) : Option (MState × String) :=
  match m.stk with
  | top :: MStackVal.Lb s :: rest =>
    if s = "" then
      some ({ m with a_cnt := (m.a_cnt + 1) % 65536,
                     stk := top :: MStackVal.Lb (fmtA ((m.a_cnt + 1) % 65536)) :: rest,
                     output := m.output ++ fmtA ((m.a_cnt + 1) % 65536) ++ " " },
            fmtA ((m.a_cnt + 1) % 65536))
    else
      some ({ m with output := m.output ++ s ++ " " }, s)
  | _ => none

/-- M::gn2: same as gn1 for the B-slot (top of stack) and b_cnt (also a
u16, wrapping modulo 2^16). -/
def gn2Op (m : MState) : Option (MState × String) :=
  match m.stk with
  | MStackVal.Lb s :: rest =>
    if s = "" then
      some ({ m with b_cnt := (m.b_cnt + 1) % 65536,
                     stk := MStackVal.Lb (fmtB ((m.b_cnt + 1) % 65536)) :: rest,
                     output := m.output ++ fmtB ((m.b_cnt + 1) % 65536) ++ " " },
            fmtB ((m.b_cnt + 1) % 65536))
    else
      some ({ m with output := m.output ++ s ++ " " }, s)
  | _ => none

/-- M::out: newline plus the eight-space indent. -/
def outOp (m : MState) : MState :=
  { m with output := m.output ++ "\n" ++ "        " }

/-- Keep everything up to and including the last newline of a reversed
character list (helper for M::lb). -/
def lbRev : List Char → List Char
  | [] => []
  | c :: rest => if c = '\n' then c :: rest else lbRev rest

/-- M::lb: truncate the output buffer back to just after the most recent
newline, or to empty when there is none. -/
def lbOp (m : MState) : MState :=
  { m with output := String.mk ((lbRev m.output.data.reverse).reverse) }

/-- M::left: the remaining input, with leading whitespace trimmed. -/
def mleft (m : MState) : String :=
  String.mk ((m.input.drop m.pos).dropWhile isAsciiWs)

/-- M::generated: finalization requires the switch on and no remaining
non-whitespace input; error () models SynError::Unexpected. -/
def generatedE (m : MState) : Except Unit String :=
  if m.sw = false then Except.error ()
  else if mleft m ≠ "" then Except.error ()
  else Except.ok m.output

/-! ### Sequences of public MVM operations -/

/-- A public operation of the MVM machine state. -/
inductive MOp where
  | tst (s : List Char)
  | id
  | num
  | sr
  | set
  | be
  | cll (n : Nat)
  | ret
  | cl (s : String)
  | ci
  | gn1
  | gn2
  | out
  | lb
deriving DecidableEq, Repr

/-- Apply one public operation; none models a panic (r or gn on a
malformed stack).  be does not change the state. -/
def applyOp : MOp → MState → Option MState
  | MOp.tst s, m => some (tstOp m s)
  | MOp.id, m => some (idOp m)
  | MOp.num, m => some (numOp m)
  | MOp.sr, m => some (srOp m)
  | MOp.set, m => some (setOp m)
  | MOp.be, m => some m
  | MOp.cll n, m => some (cllOp m n)
  | MOp.ret, m => (rOp m).map Prod.fst
  | MOp.cl s, m => some (clOp m s)
  | MOp.ci, m => some (ciOp m)
  | MOp.gn1, m => (gn1Op m).map Prod.fst
  | MOp.gn2, m => (gn2Op m).map Prod.fst
  | MOp.out, m => some (outOp m)
  | MOp.lb, m => some (lbOp m)

/-- Apply a sequence of public operations left to right. -/
def applySeq : List MOp → MState → Option MState
  | [], m => some m
  | op :: rest, m =>
    match applyOp op m with
    | none => none
    | some m2 => applySeq rest m2

/-- True of operations that neither push nor pop a call frame. -/
def MOp.isFlat : MOp → Bool
  | MOp.cll _ => false
  | MOp.ret => false
  | _ => true

/-- Operation sequences whose calls and returns nest and balance, so that
they stay within the current call frame. -/
inductive FrameBalanced : List MOp → Prop where
  | nil : FrameBalanced []
  | flat (op : MOp) (h : op.isFlat = true) {t : List MOp} (ht : FrameBalanced t) :
      FrameBalanced (op :: t)
  | call (n : Nat) {inner t : List MOp} (hi : FrameBalanced inner)
      (ht : FrameBalanced t) :
      FrameBalanced (MOp.cll n :: (inner ++ MOp.ret :: t))

/-- How a label slot of the current frame may evolve while that frame is
active: an empty slot may be materialized once, a written slot is fixed. -/
def slotEv (a b : MStackVal) : Prop :=
  a = b ∨ (a = MStackVal.Lb "" ∧ ∃ s, b = MStackVal.Lb s)

/-- Stacks that agree except that the two slots of the current frame may
have evolved. -/
def StkAgree (s t : List MStackVal) : Prop :=
  s = t ∨ (∃ a a2, s = [a] ∧ t = [a2] ∧ slotEv a a2) ∨
    ∃ a b a2 b2 rest, s = a :: b :: rest ∧ t = a2 :: b2 :: rest ∧
      slotEv a a2 ∧ slotEv b b2

/-- The last lexeme is a contiguous slice of the input ending at some
position at or before pos. -/
def LastS (m : MState) : Prop :=
  ∃ e, e ≤ m.pos ∧ m.last = (m.input.take e).drop (e - m.last.length)

/-- The scanner invariant: pos stays inside the input and last is a slice
of the input ending at or before pos. -/
def MInv (m : MState) : Prop :=
  m.pos ≤ m.input.length ∧ LastS m

/-- The final state of the C5 witness run. -/
def c5wState : MState :=
  ⟨"a".data, 1, true, ['a'], 0, 0, "        ", []⟩

/-- The final state of the C5 counterexample run: a failed num scan has
eaten the whitespace (advancing pos), and SET has turned the switch back
on, so last no longer ends at pos. -/
def c5ctrState : MState :=
  ⟨"a b".data, 2, true, ['a'], 0, 0, "        ", []⟩

/-- Intermediate states of the C6 witness computation. -/
def c6wM : MState := ⟨[], 0, false, [], 0, 0, "", [MStackVal.Lb "", MStackVal.Lb ""]⟩

def c6wM1 : MState :=
  ⟨[], 0, false, [], 1, 0, "A001 ", [MStackVal.Lb "", MStackVal.Lb "A001"]⟩

def c6wM2 : MState :=
  ⟨[], 0, false, [], 1, 0, "A001 x ", [MStackVal.Lb "", MStackVal.Lb "A001"]⟩

/-- A state whose A-counter sits at the top of the u16 range, and its
successor after one fresh gn1: the counter wraps to 0. -/
def c6ctrM : MState :=
  ⟨[], 0, false, [], 65535, 0, "", [MStackVal.Lb "", MStackVal.Lb ""]⟩

def c6ctrM1 : MState :=
  ⟨[], 0, false, [], 0, 0, "A000 ", [MStackVal.Lb "", MStackVal.Lb "A000"]⟩

/-! ### The mini lexer (minilexer) -/

/-- Lexer tokens.  A number token carries the exact decimal value as
mantissa and number of fraction digits (value = num / 10 ^ den); the
source parses the same digit string to an f64. -/
inductive Token where
  | WS
  | Id (s : String)
  | Num (num den : Nat)
  | Symbol (s : String)
  | Str (s : String)
  | End
deriving DecidableEq, Repr

/-- Lexer::is_sym_start: some symbol of the table has the accumulated
characters as a prefix. -/
def isSymStart (syms : List (List Char)) (s : List Char) : Bool :=
  syms.any (fun sym => sym.take s.length = s)

/-- The greedy symbol scan (ParseSymbol): extend while the accumulated
characters can still start a symbol. -/
def lexSym (syms : List (List Char)) (acc : List Char) : List Char → List Char × List Char
  | [] => (acc, [])
  | c :: cs =>
    if isSymStart syms (acc ++ [c]) then lexSym syms (acc ++ [c]) cs
    else (acc, c :: cs)

def isDigitDot (c : Char) : Bool := isAsciiDigit c || c = '.'

/-- Accumulated digits to a natural number. -/
def digitsToNat (l : List Char) : Nat :=
  l.foldl (fun acc c => acc * 10 + (c.toNat - 48)) 0

/-- Parse the scanned digit-and-dot characters as an exact decimal; none
models the f64 parse failure (more than one dot). -/
def parseDec (tok : List Char) : Option (Nat × Nat) :=
  match tok.drop (tok.takeWhile isAsciiDigit).length with
  | [] => some (digitsToNat tok, 0)
  | c :: frac =>
    if c = '.' ∧ frac.all isAsciiDigit then
      some (digitsToNat (tok.takeWhile isAsciiDigit ++ frac), frac.length)
    else none

def lexNum (tok rest : List Char) : Except String (Token × List Char) :=
  match parseDec tok with
  | some (n, d) => Except.ok (Token.Num n d, rest)
  | none => Except.error "invalid float literal"

/-- Lexer::next_token: produce the next token and the remaining
characters. -/
def nextToken (syms : List (List Char)) : List Char → Except String (Token × List Char)
  | [] => Except.ok (Token.End, [])
  | c :: cs =>
    if isAsciiWs c then Except.ok (Token.WS, cs.dropWhile isAsciiWs)
    else if isAsciiAlpha c then
      Except.ok (Token.Id (String.mk ((c :: cs).takeWhile isAsciiAlnum)),
        (c :: cs).dropWhile isAsciiAlnum)
    else if isAsciiDigit c then
      lexNum ((c :: cs).takeWhile isDigitDot) ((c :: cs).dropWhile isDigitDot)
    else if c = quoteChar then
      if (cs.takeWhile notQuote).length < cs.length then
        Except.ok (Token.Str (String.mk (cs.takeWhile notQuote)),
          cs.drop ((cs.takeWhile notQuote).length + 1))
      else Except.ok (Token.Str (String.mk (cs.takeWhile notQuote)), [])
    else if c = '.' then
      match cs with
      | c2 :: _ =>
        if isAsciiDigit c2 then
          lexNum ('.' :: cs.takeWhile isDigitDot) (cs.dropWhile isDigitDot)
        else if isSymStart syms ['.'] then
          match lexSym syms ['.'] cs with
          | (tok, rest) => Except.ok (Token.Symbol (String.mk tok), rest)
        else Except.error "not a symbol ."
      | [] =>
        if isSymStart syms ['.'] then Except.ok (Token.Symbol ".", [])
        else Except.error "not a symbol ."
    else
      if isSymStart syms [c] then
        match lexSym syms [c] cs with
        | (tok, rest) => Except.ok (Token.Symbol (String.mk tok), rest)
      else Except.error ("not a symbol " ++ String.mk [c])

/-! ### The IEEE binary64 value of a decimal literal

The lexer hands the assembler the literal as an exact decimal
num / 10 ^ den; the source parses it with str::parse::<f64> and BLK then
checks n.fract() and performs the saturating `as u32` cast.  These
definitions compute the binary64 value (round-to-nearest ties-to-even,
gradual underflow, overflow to infinity — literals are unsigned, so no
sign or NaN arises) and the two observations BLK makes of it. -/

/-- A nonnegative binary64 value: a finite value m * 2 ^ k, or infinity
(an overflowing literal). -/
inductive F64 where
  | finite (m : Nat) (k : Int)
  | inf
deriving DecidableEq, Repr

/-- Whether 2 ^ e ≤ num / d holds exactly (for d > 0). -/
def le2pow (e : Int) (num d : Nat) : Bool :=
  if 0 ≤ e then d * 2 ^ e.toNat ≤ num else d ≤ num * 2 ^ (-e).toNat

/-- The iterated squares 2 ^ 2 ^ t not exceeding n, largest first, each
paired with its exponent 2 ^ t.  The structural fuel bounds the chain
length; 128 covers every n below 2 ^ 2 ^ 128. -/
def sqChainP : Nat → Nat × Nat → Nat → List (Nat × Nat)
  | 0, _, _ => []
  | fuel+1, qe, n =>
    if qe.1 ≤ n then sqChainP fuel (qe.1 * qe.1, 2 * qe.2) n ++ [qe] else []

/-- Greedy binary decomposition of the exponent along the square chain. -/
def log2Fold : List (Nat × Nat) → Nat → Nat → Nat
  | [], _, acc => acc
  | qe :: rest, n, acc =>
    if qe.1 ≤ n then log2Fold rest (n / qe.1) (acc + qe.2)
    else log2Fold rest n acc

/-- Floor of the base-2 logarithm (0 at 0), computed by kernel-reducible
structural recursion. -/
def natLog2 (n : Nat) : Nat := log2Fold (sqChainP 128 (2, 1) n) n 0

/-- Round-to-nearest, ties-to-even of the exact quotient a / b to an
integer. -/
def rndHalfEven (a b : Nat) : Nat :=
  if b < 2 * (a % b) then a / b + 1
  else if 2 * (a % b) < b then a / b
  else a / b + a / b % 2

/-- The binary64 value of the exact decimal num / 10 ^ den: the f64 that
str::parse produces for the literal.  The significand is rounded to 53
bits at exponent e - 52 (clamped to -1074 for subnormals); a rounded
significand of 2 ^ 53 carries into the next exponent; exponents above
971 overflow to infinity. -/
def decToF64 (num den : Nat) : F64 :=
  if num = 0 then F64.finite 0 0
  else
    let d := 10 ^ den
    let a : Int := (natLog2 num : Int) - (natLog2 d : Int)
    let e : Int := if le2pow a num d then a else a - 1
    let k : Int := max (e - 52) (-1074)
    let m : Nat :=
      if 0 ≤ k then rndHalfEven num (d * 2 ^ k.toNat)
      else rndHalfEven (num * 2 ^ (-k).toNat) d
    if 2 ^ 53 ≤ m then
      if 971 < k + 1 then F64.inf else F64.finite (2 ^ 52) (k + 1)
    else if 971 < k then F64.inf else F64.finite m k

/-- f64::fract() == 0.0: whether the value is an integer.  False for
infinity, whose fract() is NaN (and NaN != 0.0 holds). -/
def isIntegralF64 : F64 → Bool
  | F64.inf => false
  | F64.finite m k => if 0 ≤ k then true else m % 2 ^ (-k).toNat == 0

/-- The `as u32` cast of a nonnegative f64: truncation toward zero,
saturating at u32::MAX (infinity also casts to u32::MAX). -/
def f64ToU32sat : F64 → Nat
  | F64.inf => 4294967295
  | F64.finite m k =>
    min (if 0 ≤ k then m * 2 ^ k.toNat else m / 2 ^ (-k).toNat) 4294967295

/-! ### The shared assembler (mparse) -/

/-- Which resolution flavor a label-carrying instruction needs. -/
inductive AAAUse where
  | mem (s : String)
  | ic (s : String)
  | noAAA
deriving DecidableEq, Repr

/-- The capability interface of trait ParseableInstr.  The reconstruction
functions return none to model the unknown-aaa-instruction panics. -/
structure InstrOps (I : Type) where
  acceptBlk : Bool
  isUndefined : I → Bool
  withLabel : String → String → I
  withNum : String → Nat → Nat → I
  withString : String → String → I
  withNoarg : String → I
  aaaOf : I → AAAUse
  reconWithAddr : I → String → Nat → Option I
  reconWithIc : I → String → Nat → Option I

/-- struct MProgram: instruction vector, label map, address-to-index map,
and the running address.  The maps are association lists with
most-recent-first lookup (insert overwrites).  addr is a u32 in the
source; every addition below takes it modulo 2^32 (the wrapping
release-profile semantics). -/
structure MProg (I : Type) where
  instrs : List I
  labels : List (String × Nat)
  ics : List (Nat × Nat)
  addr : Nat
deriving DecidableEq, Repr

def alookup {α β : Type} [DecidableEq α] : List (α × β) → α → Option β
  | [], _ => none
  | (k, v) :: rest, key => if key = k then some v else alookup rest key

/-- MProgram::add_label: record the current address for the label and the
current instruction index for the address. -/
def addLabel {I : Type} (p : MProg I) (label : String) : MProg I :=
  { p with labels := (label, p.addr) :: p.labels,
           ics := (p.addr, p.instrs.length) :: p.ics }

/-- Emit one instruction and advance the u32 address. -/
def addEmit {I : Type} (ops : InstrOps I) (i : I) (inc : Nat) (p : MProg I) :
    Except String (Bool × MProg I) :=
  if ops.isUndefined i then Except.error "invalid instruction"
  else Except.ok (false, { p with instrs := p.instrs ++ [i],
                                  addr := (p.addr + inc) % 4294967296 })

/-- The heart of MProgram::add_instr: given the mnemonic and its argument
token, emit the instruction (advancing the address by 2 with an argument
and by 1 without), or process BLK/END.  BLK checks fract() of the f64
value of the literal and adds its saturating `as u32` cast to the u32
address. -/
def addInstrCore {I : Type} (ops : InstrOps I) (ins : String) (tok : Token)
    (p : MProg I) : Except String (Bool × MProg I) :=
  match tok with
  | Token.WS => Except.error "internal error: repeated whitespace token"
  | Token.Id label => addEmit ops (ops.withLabel ins label) 2 p
  | Token.Num num den =>
    if ins = "BLK" then
      if ops.acceptBlk = false then Except.error "BLK use is invalid"
      else if isIntegralF64 (decToF64 num den) = false then Except.error "invalid BLK"
      else Except.ok (false,
        { p with addr := (p.addr + f64ToU32sat (decToF64 num den)) % 4294967296 })
    else addEmit ops (ops.withNum ins num den) 2 p
  | Token.Str s => addEmit ops (ops.withString ins s) 2 p
  | Token.Symbol s =>
    if s ≠ "#" then Except.error "invalid line"
    else if ins = "END" then Except.ok (true, p)
    else addEmit ops (ops.withNoarg ins) 1 p
  | Token.End =>
    if ins = "END" then Except.ok (true, p)
    else addEmit ops (ops.withNoarg ins) 1 p

/-- MProgram::add_instr: read the mnemonic and the optional argument token
from the rest of the line. -/
def addInstrL {I : Type} (ops : InstrOps I) (syms : List (List Char))
    (cs : List Char) (p : MProg I) : Except String (Bool × MProg I) :=
  match nextToken syms cs with
  | Except.error e => Except.error e
  | Except.ok (Token.End, _) => Except.ok (true, p)
  | Except.ok (Token.Symbol s, _) =>
    if s = "#" then Except.ok (false, p) else Except.error "unexpected token"
  | Except.ok (Token.Id ins, rest) =>
    match nextToken syms rest with
    | Except.error e => Except.error e
    | Except.ok (tok, rest2) =>
      if tok = Token.WS then
        match nextToken syms rest2 with
        | Except.error e => Except.error e
        | Except.ok (tok2, _) => addInstrCore ops ins tok2 p
      else addInstrCore ops ins tok p
  | Except.ok _ => Except.error "unexpected token"

/-- Right-trim a line (str::trim_end over ASCII). -/
def trimEndWs (l : List Char) : List Char :=
  (l.reverse.dropWhile isAsciiWs).reverse

/-- str::lines - split at newlines. -/
def splitNl : List Char → List (List Char)
  | [] => [[]]
  | c :: cs =>
    if c = '\n' then [] :: splitNl cs
    else
      match splitNl cs with
      | l :: ls => (c :: l) :: ls
      | [] => [[c]]

/-- The assembler line loop of MProgram::parse. -/
def parseLines {I : Type} (ops : InstrOps I) (syms : List (List Char)) :
    List (List Char) → MProg I → Except String (MProg I)
  | [], p => Except.ok p
  | l :: rest, p =>
    if trimEndWs l = [] then parseLines ops syms rest p
    else
      match nextToken syms (trimEndWs l) with
      | Except.error e => Except.error e
      | Except.ok (Token.Id id, _) => parseLines ops syms rest (addLabel p id)
      | Except.ok (Token.WS, lrest) =>
        match addInstrL ops syms lrest p with
        | Except.error e => Except.error e
        | Except.ok (true, p2) => Except.ok p2
        | Except.ok (false, p2) => parseLines ops syms rest p2
      | Except.ok (Token.Symbol s, _) =>
        if s = "#" then parseLines ops syms rest p
        else Except.error "unexpected token"
      | Except.ok _ => Except.error "unexpected token"

/-- resolve_aaa / resolve_ic for one instruction. -/
def resolveOne {I : Type} (ops : InstrOps I) (labels : List (String × Nat))
    (ics : List (Nat × Nat)) (len : Nat) (i : I) : Except String I :=
  match ops.aaaOf i with
  | AAAUse.noAAA => Except.ok i
  | AAAUse.mem aaa =>
    match alookup labels aaa with
    | none => Except.error ("unknown label " ++ aaa)
    | some addr =>
      match ops.reconWithAddr i aaa addr with
      | none => Except.error "internal error: unknown aaa instruction"
      | some i2 => Except.ok i2
  | AAAUse.ic aaa =>
    match alookup labels aaa with
    | none => Except.error ("unknown label " ++ aaa)
    | some addr =>
      match alookup ics addr with
      | none => Except.error "internal error: unmatched addr for ic"
      | some k =>
        if len ≤ k then
          Except.error ("instruction counter for " ++ aaa ++ " without instruction")
        else
          match ops.reconWithIc i aaa k with
          | none => Except.error "internal error: unknown aaa instruction"
          | some i2 => Except.ok i2

/-- MProgram::resolve over the instruction vector, first error wins. -/
def resolveList {I : Type} (ops : InstrOps I) (labels : List (String × Nat))
    (ics : List (Nat × Nat)) (len : Nat) : List I → Except String (List I)
  | [] => Except.ok []
  | i :: rest =>
    match resolveOne ops labels ics len i with
    | Except.error e => Except.error e
    | Except.ok i2 =>
      match resolveList ops labels ics len rest with
      | Except.error e => Except.error e
      | Except.ok rest2 => Except.ok (i2 :: rest2)

/-- MProgram::parse: the line loop followed by the resolution pass. -/
def mparseText {I : Type} (ops : InstrOps I) (pgm : String) :
    Except String (MProg I) :=
  match parseLines ops [['#']] (splitNl pgm.data) ⟨[], [], [], 0⟩ with
  | Except.error e => Except.error e
  | Except.ok p =>
    match resolveList ops p.labels p.ics p.instrs.length p.instrs with
    | Except.error e => Except.error e
    | Except.ok instrs2 => Except.ok { p with instrs := instrs2 }

/-! ### The MVM instruction set (meta) -/

inductive MInstr where
  | TST (s : String)
  | ID
  | NUM
  | SR
  | CLL (lbl : String) (t : Nat)
  | R
  | SET
  | B (lbl : String) (t : Nat)
  | BT (lbl : String) (t : Nat)
  | BF (lbl : String) (t : Nat)
  | BE
  | CL (s : String)
  | CI
  | GN1
  | GN2
  | LB
  | OUT
  | ADR (lbl : String) (t : Nat)
  | Undef
deriving DecidableEq, Repr

/-- The ParseableInstr implementation of the MVM dialect. -/
def mvmOps : InstrOps MInstr where
  acceptBlk := false
  isUndefined := fun i => match i with
    | MInstr.Undef => true
    | _ => false
  withLabel := fun ins label => match ins with
    | "CLL" => MInstr.CLL label 0
    | "B" => MInstr.B label 0
    | "BT" => MInstr.BT label 0
    | "BF" => MInstr.BF label 0
    | "ADR" => MInstr.ADR label 0
    | _ => MInstr.Undef
  withNum := fun _ _ _ => MInstr.Undef
  withString := fun ins s => match ins with
    | "TST" => MInstr.TST s
    | "CL" => MInstr.CL s
    | _ => MInstr.Undef
  withNoarg := fun ins => match ins with
    | "ID" => MInstr.ID
    | "NUM" => MInstr.NUM
    | "SR" => MInstr.SR
    | "R" => MInstr.R
    | "SET" => MInstr.SET
    | "BE" => MInstr.BE
    | "CI" => MInstr.CI
    | "GN1" => MInstr.GN1
    | "GN2" => MInstr.GN2
    | "LB" => MInstr.LB
    | "OUT" => MInstr.OUT
    | _ => MInstr.Undef
  aaaOf := fun i => match i with
    | MInstr.ADR aaa _ => AAAUse.ic aaa
    | MInstr.B aaa _ => AAAUse.ic aaa
    | MInstr.BT aaa _ => AAAUse.ic aaa
    | MInstr.BF aaa _ => AAAUse.ic aaa
    | MInstr.CLL aaa _ => AAAUse.ic aaa
    | _ => AAAUse.noAAA
  reconWithAddr := fun _ _ _ => none
  reconWithIc := fun i aaa k => match i with
    | MInstr.ADR _ _ => some (MInstr.ADR aaa k)
    | MInstr.B _ _ => some (MInstr.B aaa k)
    | MInstr.BT _ _ => some (MInstr.BT aaa k)
    | MInstr.BF _ _ => some (MInstr.BF aaa k)
    | MInstr.CLL _ _ => some (MInstr.CLL aaa k)
    | _ => none

/-- A minimal BLK-accepting dialect (the ACCEPT_BLK = true side of the
trait, as the AVM dialect declares), used to instantiate the generic
assembler theorems on the BLK path. -/
def blkOps : InstrOps Unit where
  acceptBlk := true
  isUndefined := fun _ => false
  withLabel := fun _ _ => ()
  withNum := fun _ _ _ => ()
  withString := fun _ _ => ()
  withNoarg := fun _ => ()
  aaaOf := fun _ => AAAUse.noAAA
  reconWithAddr := fun i _ _ => some i
  reconWithIc := fun i _ _ => some i

/-- The fetch-dispatch loop of M::execute, with fuel; none models the
panics (Undef, ADR after the prolog, index out of range, malformed stack)
and fuel exhaustion; a BE recognition failure breaks the loop and returns
the state as the source does. -/
def execLoop (instrs : List MInstr) : Nat → Nat → MState → Option MState
  | 0, _, _ => none
  | fuel+1, ic, m =>
    match instrs.get? ic with
    | none => none
    | some i =>
      match i with
      | MInstr.Undef => none
      | MInstr.ADR _ _ => none
      | MInstr.TST s => execLoop instrs fuel (ic+1) (tstOp m s.data)
      | MInstr.ID => execLoop instrs fuel (ic+1) (idOp m)
      | MInstr.NUM => execLoop instrs fuel (ic+1) (numOp m)
      | MInstr.SR => execLoop instrs fuel (ic+1) (srOp m)
      | MInstr.CLL _ t => execLoop instrs fuel t (cllOp m (ic+1))
      | MInstr.R =>
        match rOp m with
        | none => none
        | some (m2, ric) => if ric = 0 then some m2 else execLoop instrs fuel ric m2
      | MInstr.SET => execLoop instrs fuel (ic+1) (setOp m)
      | MInstr.B _ t => execLoop instrs fuel t m
      | MInstr.BT _ t =>
        if m.sw then execLoop instrs fuel t m else execLoop instrs fuel (ic+1) m
      | MInstr.BF _ t =>
        if m.sw then execLoop instrs fuel (ic+1) m else execLoop instrs fuel t m
      | MInstr.BE => if m.sw then execLoop instrs fuel (ic+1) m else some m
      | MInstr.CL s => execLoop instrs fuel (ic+1) (clOp m s)
      | MInstr.CI => execLoop instrs fuel (ic+1) (ciOp m)
      | MInstr.GN1 =>
        match gn1Op m with
        | none => none
        | some (m2, _) => execLoop instrs fuel (ic+1) m2
      | MInstr.GN2 =>
        match gn2Op m with
        | none => none
        | some (m2, _) => execLoop instrs fuel (ic+1) m2
      | MInstr.LB => execLoop instrs fuel (ic+1) (lbOp m)
      | MInstr.OUT => execLoop instrs fuel (ic+1) (outOp m)

/-- M::execute: the implicit top-level cll with return target 0, then
dispatch through the prolog ADR (instruction 0 must be ADR). -/
def executeP (instrs : List MInstr) (fuel : Nat) (m : MState) : Option MState :=
  match instrs.get? 0 with
  | some (MInstr.ADR _ start) => execLoop instrs fuel start (cllOp m 0)
  | _ => none

/-- Load a program text with the MVM dialect and execute it against a
source text (the run function without the I/O wrapper). -/
def mvmRun (pgmText src : String) (fuel : Nat) : Option MState :=
  match mparseText mvmOps pgmText with
  | Except.error _ => none
  | Except.ok p => executeP p.instrs fuel (mInit src)

deriving instance DecidableEq for Except

/-- True of argument tokens (identifier, number, string); instruction
lines carrying one advance the address by 2, nullary lines by 1. -/
def Token.isArg : Token → Bool
  | Token.Id _ => true
  | Token.Num _ _ => true
  | Token.Str _ => true
  | _ => false

/-- The trivial identity program of the C2 scenario. -/
def c2text : String := " ADR S\nS\n R\n END"

/-- The program of the C4 counterexample: BE fires immediately with the
switch off. -/
def c4text : String := " ADR S\nS\n BE\n R\n END"

/-- The NUM scenario program of C7. -/
def c7text : String := " ADR S\nS\n NUM\n BE\n R\n END"

/-- An instruction whose references are all satisfied by the label and
index maps of the program. -/
def Resolvable {I : Type} (ops : InstrOps I) (labels : List (String × Nat))
    (ics : List (Nat × Nat)) (len : Nat) (i : I) : Prop :=
  (∀ aaa, ops.aaaOf i = AAAUse.mem aaa →
    ∃ addr i2, alookup labels aaa = some addr ∧
      ops.reconWithAddr i aaa addr = some i2) ∧
  (∀ aaa, ops.aaaOf i = AAAUse.ic aaa →
    ∃ addr k i2, alookup labels aaa = some addr ∧ alookup ics addr = some k ∧
      k < len ∧ ops.reconWithIc i aaa k = some i2)

/-! ### The bootstrap translator (metabstrp) -/

/-- The outcome of a bootstrap recognizer function: Ok(Recognized),
Ok(Unrecognized), or Err(SynError::Unexpected). -/
inductive MRes where
  | recognized
  | unrecognized
  | unexpected
deriving DecidableEq, Repr

/-- out1: one output element inside .OUT(...) or .LABEL. -/
def out1B (m0 : MState) : Option (MRes × MState) :=
  let m := cllOp m0 5
  let res :=
    let m := tstOp m "*1".data
    if m.sw then (MRes.recognized, outOp (clOp m "GN1"))
    else
      let m := tstOp m "*2".data
      if m.sw then (MRes.recognized, outOp (clOp m "GN2"))
      else
        let m := tstOp m "*".data
        if m.sw then (MRes.recognized, outOp (clOp m "CI"))
        else
          let m := srOp m
          if m.sw then (MRes.recognized, outOp (ciOp (clOp m "CL ")))
          else (MRes.unrecognized, m)
  match rOp res.2 with
  | none => none
  | some (m2, rc) => if rc = 5 then some (res.1, m2) else none

/-- The while-let loop over out1 inside .OUT; recognized marks loop
completion. -/
def out1Loop : Nat → MState → Option (MRes × MState)
  | 0, _ => none
  | f+1, m =>
    match out1B m with
    | none => none
    | some (MRes.unexpected, m2) => some (MRes.unexpected, m2)
    | some (MRes.unrecognized, m2) => some (MRes.recognized, m2)
    | some (MRes.recognized, m2) => out1Loop f m2

/-- output: the .OUT(...) and .LABEL clauses. -/
def outputB (f : Nat) (m0 : MState) : Option (MRes × MState) :=
  let m := cllOp m0 4
  let step : Option (MRes × MState) :=
    let m1 := tstOp m ".OUT".data
    if m1.sw then
      let m2 := tstOp m1 "(".data
      if m2.sw = false then some (MRes.unexpected, m2)
      else
        match out1Loop f m2 with
        | none => none
        | some (MRes.unexpected, m3) => some (MRes.unexpected, m3)
        | some (_, m3) =>
          let m4 := tstOp m3 ")".data
          if m4.sw = false then some (MRes.unexpected, m4)
          else some (MRes.recognized, outOp (clOp m4 "OUT"))
    else
      let m2 := tstOp m1 ".LABEL".data
      if m2.sw then
        let m3 := outOp (clOp m2 "LB")
        match out1B m3 with
        | none => none
        | some (MRes.unexpected, m4) => some (MRes.unexpected, m4)
        | some (MRes.unrecognized, m4) => some (MRes.unexpected, m4)
        | some (MRes.recognized, m4) =>
          some (MRes.recognized, outOp (clOp m4 "OUT"))
      else some (MRes.unrecognized, m2)
  match step with
  | none => none
  | some (res, m5) =>
    match rOp m5 with
    | none => none
    | some (m6, rc) => if rc = 4 then some (res, m6) else none

mutual

/-- ex3: a primary of the META expression grammar. -/
def ex3B : Nat → MState → Option (MRes × MState)
  | 0, _ => none
  | f+1, m0 =>
    let m := cllOp m0 3
    let step : Option (MRes × MState) :=
      let m1 := idOp m
      if m1.sw then some (MRes.recognized, outOp (ciOp (clOp m1 "CLL")))
      else
        let m2 := srOp m1
        if m2.sw then some (MRes.recognized, outOp (ciOp (clOp m2 "TST ")))
        else
          let m3 := tstOp m2 ".ID".data
          if m3.sw then some (MRes.recognized, outOp (clOp m3 "ID"))
          else
            let m4 := tstOp m3 ".NUMBER".data
            if m4.sw then some (MRes.recognized, outOp (clOp m4 "NUM"))
            else
              let m5 := tstOp m4 ".STRING".data
              if m5.sw then some (MRes.recognized, outOp (clOp m5 "SR"))
              else
                let m6 := tstOp m5 "(".data
                if m6.sw then
                  match ex1B f m6 with
                  | none => none
                  | some (MRes.unexpected, m7) => some (MRes.unexpected, m7)
                  | some (MRes.unrecognized, m7) => some (MRes.unexpected, m7)
                  | some (MRes.recognized, m7) =>
                    let m8 := tstOp m7 ")".data
                    if m8.sw = false then some (MRes.unexpected, m8)
                    else some (MRes.recognized, m8)
                else
                  let m7 := tstOp m6 ".EMPTY".data
                  if m7.sw then some (MRes.recognized, outOp (clOp m7 "SET"))
                  else
                    let m8 := tstOp m7 "$".data
                    if m8.sw then
                      match gn1Op (lbOp m8) with
                      | none => none
                      | some (m9, _) =>
                        match ex3B f (outOp m9) with
                        | none => none
                        | some (MRes.unexpected, m10) => some (MRes.unexpected, m10)
                        | some (MRes.unrecognized, m10) => some (MRes.unexpected, m10)
                        | some (MRes.recognized, m10) =>
                          match gn1Op (clOp m10 "BT ") with
                          | none => none
                          | some (m11, _) =>
                            some (MRes.recognized, outOp (clOp (outOp m11) "SET"))
                    else some (MRes.unrecognized, m8)
    match step with
    | none => none
    | some (res, mz) =>
      match rOp mz with
      | none => none
      | some (mz2, rc) => if rc = 3 then some (res, mz2) else none

/-- The inner loop of ex2. -/
def ex2Loop : Nat → MState → Option (MRes × MState)
  | 0, _ => none
  | f+1, m =>
    match ex3B f m with
    | none => none
    | some (MRes.unexpected, m2) => some (MRes.unexpected, m2)
    | some (MRes.recognized, m2) => ex2Loop f (outOp (clOp m2 "BE"))
    | some (MRes.unrecognized, m2) =>
      match outputB f m2 with
      | none => none
      | some (MRes.unexpected, m3) => some (MRes.unexpected, m3)
      | some (MRes.unrecognized, m3) => some (MRes.recognized, m3)
      | some (MRes.recognized, m3) => ex2Loop f m3

/-- ex2: a sequence of primaries and output clauses. -/
def ex2B : Nat → MState → Option (MRes × MState)
  | 0, _ => none
  | f+1, m0 =>
    let m := cllOp m0 2
    let step : Option (MRes × MState) :=
      match ex3B f m with
      | none => none
      | some (MRes.unexpected, m2) => some (MRes.unexpected, m2)
      | some (MRes.recognized, m2) =>
        match gn1Op (clOp m2 "BF ") with
        | none => none
        | some (m3, _) =>
          match ex2Loop f (outOp m3) with
          | none => none
          | some (MRes.unexpected, m4) => some (MRes.unexpected, m4)
          | some (_, m4) =>
            match gn1Op (lbOp m4) with
            | none => none
            | some (m5, _) => some (MRes.recognized, outOp m5)
      | some (MRes.unrecognized, m2) =>
        match outputB f m2 with
        | none => none
        | some (MRes.unexpected, m3) => some (MRes.unexpected, m3)
        | some (MRes.unrecognized, m3) => some (MRes.unrecognized, m3)
        | some (MRes.recognized, m3) =>
          match ex2Loop f m3 with
          | none => none
          | some (MRes.unexpected, m4) => some (MRes.unexpected, m4)
          | some (_, m4) =>
            match gn1Op (lbOp m4) with
            | none => none
            | some (m5, _) => some (MRes.recognized, outOp m5)
    match step with
    | none => none
    | some (res, mz) =>
      match rOp mz with
      | none => none
      | some (mz2, rc) => if rc = 2 then some (res, mz2) else none

/-- The alternation loop of ex1. -/
def ex1Loop : Nat → MState → Option (MRes × MState)
  | 0, _ => none
  | f+1, m =>
    let m1 := tstOp m "/".data
    if m1.sw = false then some (MRes.recognized, m1)
    else
      match gn1Op (clOp m1 "BT ") with
      | none => none
      | some (m2, _) =>
        match ex2B f (outOp m2) with
        | none => none
        | some (MRes.unexpected, m3) => some (MRes.unexpected, m3)
        | some (MRes.unrecognized, m3) => some (MRes.unexpected, m3)
        | some (MRes.recognized, m3) => ex1Loop f m3

/-- ex1: an alternation.  Note that as in the source, an error from the
inner ex2 propagates without popping the call frame pushed at entry. -/
def ex1B : Nat → MState → Option (MRes × MState)
  | 0, _ => none
  | f+1, m0 =>
    let m := cllOp m0 1
    match ex2B f m with
    | none => none
    | some (MRes.unexpected, m2) => some (MRes.unexpected, m2)
    | some (MRes.unrecognized, m2) => some (MRes.unrecognized, m2)
    | some (MRes.recognized, m2) =>
      match ex1Loop f m2 with
      | none => none
      | some (MRes.unexpected, m3) => some (MRes.unexpected, m3)
      | some (_, m3) =>
        match gn1Op (lbOp m3) with
        | none => none
        | some (m4, _) =>
          match rOp (outOp m4) with
          | none => none
          | some (m5, rc) => if rc = 1 then some (MRes.recognized, m5) else none

end

/-- st: one grammar rule, id = ex1 ;. -/
def stB (f : Nat) (m : MState) : Option (MRes × MState) :=
  let m1 := idOp m
  if m1.sw = false then some (MRes.unrecognized, m1)
  else
    let m2 := outOp (ciOp (lbOp m1))
    let m3 := tstOp m2 "=".data
    if m3.sw = false then some (MRes.unexpected, m3)
    else
      match ex1B f m3 with
      | none => none
      | some (MRes.unexpected, m4) => some (MRes.unexpected, m4)
      | some (MRes.unrecognized, m4) => some (MRes.unexpected, m4)
      | some (MRes.recognized, m4) =>
        let m5 := tstOp m4 ";".data
        if m5.sw = false then some (MRes.unexpected, m5)
        else some (MRes.recognized, outOp (clOp m5 "R"))

/-- The while-let loop over st in program. -/
def stLoop : Nat → MState → Option (MRes × MState)
  | 0, _ => none
  | f+1, m =>
    match stB f m with
    | none => none
    | some (MRes.unexpected, m2) => some (MRes.unexpected, m2)
    | some (MRes.unrecognized, m2) => some (MRes.recognized, m2)
    | some (MRes.recognized, m2) => stLoop f m2

/-- program: the top-level recognizer of the bootstrap translator. -/
def programB (f : Nat) (m : MState) : Option (MRes × MState) :=
  let m1 := tstOp m ".SYNTAX".data
  if m1.sw = false then some (MRes.unrecognized, m1)
  else
    let m2 := idOp m1
    if m2.sw = false then some (MRes.unexpected, m2)
    else
      let m3 := outOp (ciOp (clOp m2 "ADR"))
      match stLoop f m3 with
      | none => none
      | some (MRes.unexpected, m4) => some (MRes.unexpected, m4)
      | some (_, m4) =>
        let m5 := tstOp m4 ".END".data
        if m5.sw = false then some (MRes.unexpected, m5)
        else some (MRes.recognized, outOp (clOp m5 "END"))

/-- A single-quote string, for building texts containing quotes. -/
def squote : String := String.mk [quoteChar]

/-- The syntax text of the bootstrap self-test (C9). -/
def c9input : String :=
  ".SYNTAX A\nA = X / " ++ squote ++ "Y" ++ squote ++ " ;\n.END\n"

/-- The MVM assembly asserted by the bootstrap self-test. -/
def c9expected : String :=
  "        ADR A\nA\n        CLL X\n        BF  A001 \nA001 \n" ++
  "        BT  A002 \n        TST  " ++ squote ++ "Y" ++ squote ++
  "\n        BF  A003 \nA003 \nA002 \n        R \n        END \n        "

/-! ### Theorems and supporting lemmas -/

/-- Undoing the collapse performed at a cll restores the stack exactly. -/
lemma cllCollapse_restore (stk : List MStackVal) :
    (if (cllCollapse stk).1 = true
     then MStackVal.Lb "" :: MStackVal.Lb "" :: (cllCollapse stk).2
     else (cllCollapse stk).2) = stk := by
  rcases stk with _ | ⟨a, tl⟩
  · rfl
  · rcases a with s2 | ⟨r2, b2⟩
    · rcases tl with _ | ⟨b, tl2⟩
      · rfl
      · rcases b with s1 | ⟨r1, b1⟩
        · by_cases he : s2 = "" ∧ s1 = ""
          · simp [cllCollapse, he, he.1, he.2]
          · simp [cllCollapse, he]
        · rfl
    · rfl

/-- C3: performing cll and then immediately r returns the pushed return
index and restores the machine state (in particular the stack) exactly,
both in the blanks-collapse case and in the plain case. -/
theorem c3_cll_r_roundtrip : ∀ (m : MState) (n : Nat), rOp (cllOp m n) = some (m, n) := by
  intro m n
  simp only [cllOp, rOp]
  rw [cllCollapse_restore m.stk]

lemma slotEv_refl (a : MStackVal) : slotEv a a := Or.inl rfl

lemma slotEv_trans {a b c : MStackVal} (h1 : slotEv a b) (h2 : slotEv b c) :
    slotEv a c := by
  rcases h1 with h1 | ⟨he, s, hs⟩
  · rwa [h1]
  · rcases h2 with h2 | ⟨he2, t, ht⟩
    · exact Or.inr ⟨he, s, h2 ▸ hs⟩
    · exact Or.inr ⟨he, t, ht⟩

lemma StkAgree_refl (s : List MStackVal) : StkAgree s s := Or.inl rfl

lemma StkAgree_trans {s t u : List MStackVal} (h1 : StkAgree s t)
    (h2 : StkAgree t u) : StkAgree s u := by
  rcases h1 with rfl | ⟨a, a2, rfl, rfl, ha⟩ | ⟨a, b, a2, b2, rest, rfl, rfl, ha, hb⟩
  · exact h2
  · rcases h2 with h2 | ⟨c, c2, heq, rfl, hc⟩ | ⟨c, d, c2, d2, rest2, heq, hu, hc, hd⟩
    · exact Or.inr (Or.inl ⟨a, a2, rfl, h2 ▸ rfl, ha⟩)
    · obtain rfl : a2 = c := by injection heq
      exact Or.inr (Or.inl ⟨a, c2, rfl, rfl, slotEv_trans ha hc⟩)
    · exfalso
      injection heq with g1 g2
      exact absurd g2.symm (List.cons_ne_nil d rest2)
  · rcases h2 with h2 | ⟨c, c2, heq, rfl, hc⟩ | ⟨c, d, c2, d2, rest2, heq, hu, hc, hd⟩
    · exact Or.inr (Or.inr ⟨a, b, a2, b2, rest, rfl, h2 ▸ rfl, ha, hb⟩)
    · exfalso
      injection heq with g1 g2
      exact absurd g2 (List.cons_ne_nil b2 rest)
    · obtain ⟨he1, he2, he3⟩ : a2 = c ∧ b2 = d ∧ rest = rest2 := by
        injection heq with g1 g2
        injection g2 with g3 g4
        exact ⟨g1, g3, g4⟩
      subst he1; subst he2; subst he3
      exact Or.inr (Or.inr ⟨a, b, c2, d2, rest, rfl, hu,
        slotEv_trans ha hc, slotEv_trans hb hd⟩)

lemma applySeq_append (xs ys : List MOp) (m : MState) :
    applySeq (xs ++ ys) m =
      (applySeq xs m).bind (fun m2 => applySeq ys m2) := by
  induction xs generalizing m with
  | nil => rfl
  | cons op t ih =>
    simp only [List.cons_append, applySeq]
    cases applyOp op m with
    | none => rfl
    | some m2 => exact ih m2

/-- gn1 on an empty A-slot: a fresh A-label is materialized. -/
lemma gn1_eq_fresh (m : MState) (top : MStackVal) (rest : List MStackVal)
    (hm : m.stk = top :: MStackVal.Lb "" :: rest) :
    gn1Op m = some ({ m with a_cnt := (m.a_cnt + 1) % 65536,
                             stk := top :: MStackVal.Lb (fmtA ((m.a_cnt + 1) % 65536)) :: rest,
                             output := m.output ++ fmtA ((m.a_cnt + 1) % 65536) ++ " " },
                    fmtA ((m.a_cnt + 1) % 65536)) := by
  unfold gn1Op
  rw [hm]
  simp

/-- gn1 on a written A-slot: the recorded label is emitted again. -/
lemma gn1_eq_stale (m : MState) (top : MStackVal) (s : String)
    (rest : List MStackVal) (hm : m.stk = top :: MStackVal.Lb s :: rest)
    (hs : s ≠ "") :
    gn1Op m = some ({ m with output := m.output ++ s ++ " " }, s) := by
  unfold gn1Op
  rw [hm]
  simp [hs]

/-- gn2 on an empty B-slot: a fresh B-label is materialized. -/
lemma gn2_eq_fresh (m : MState) (rest : List MStackVal)
    (hm : m.stk = MStackVal.Lb "" :: rest) :
    gn2Op m = some ({ m with b_cnt := (m.b_cnt + 1) % 65536,
                             stk := MStackVal.Lb (fmtB ((m.b_cnt + 1) % 65536)) :: rest,
                             output := m.output ++ fmtB ((m.b_cnt + 1) % 65536) ++ " " },
                    fmtB ((m.b_cnt + 1) % 65536)) := by
  unfold gn2Op
  rw [hm]
  simp

/-- gn2 on a written B-slot: the recorded label is emitted again. -/
lemma gn2_eq_stale (m : MState) (s : String) (rest : List MStackVal)
    (hm : m.stk = MStackVal.Lb s :: rest) (hs : s ≠ "") :
    gn2Op m = some ({ m with output := m.output ++ s ++ " " }, s) := by
  unfold gn2Op
  rw [hm]
  simp [hs]

/-- The trivial agreement conclusion for an operation that keeps the
stack. -/
lemma agree_of_eq {m m2 : MState} (hstk : m.stk = m2.stk) :
    StkAgree m.stk m2.stk := by
  rw [hstk]
  exact StkAgree_refl _

/-- A frame-flat operation leaves the stack unchanged except for monotone
evolution of the two slots of the current frame. -/
lemma flat_step (op : MOp) {m m2 : MState} (hf : op.isFlat = true)
    (h : applyOp op m = some m2) :
    StkAgree m.stk m2.stk := by
  cases op with
  | tst s =>
    obtain rfl := Option.some.inj h
    unfold tstOp tstAt
    split <;> exact agree_of_eq rfl
  | id =>
    obtain rfl := Option.some.inj h
    unfold idOp idAt
    split
    · exact agree_of_eq rfl
    · split <;> exact agree_of_eq rfl
  | num =>
    obtain rfl := Option.some.inj h
    unfold numOp numAt
    split
    · exact agree_of_eq rfl
    · split
      · split <;> exact agree_of_eq rfl
      · exact agree_of_eq rfl
  | sr =>
    obtain rfl := Option.some.inj h
    unfold srOp srAt
    split
    · exact agree_of_eq rfl
    · split
      · split <;> exact agree_of_eq rfl
      · exact agree_of_eq rfl
  | set =>
    obtain rfl := Option.some.inj h
    exact agree_of_eq rfl
  | be =>
    obtain rfl := Option.some.inj h
    exact agree_of_eq rfl
  | cll n => cases hf
  | ret => cases hf
  | cl s =>
    obtain rfl := Option.some.inj h
    exact agree_of_eq rfl
  | ci =>
    obtain rfl := Option.some.inj h
    unfold ciOp
    split <;> exact agree_of_eq rfl
  | gn1 =>
    rcases hm : m.stk with _ | ⟨top, tl⟩
    · simp only [applyOp] at h
      unfold gn1Op at h
      rw [hm] at h
      cases h
    · rcases tl with _ | ⟨b, rest⟩
      · simp only [applyOp] at h
        unfold gn1Op at h
        rw [hm] at h
        rcases top with s0 | ⟨r0, b0⟩ <;> cases h
      · rcases b with s0 | ⟨r0, b0⟩
        · simp only [applyOp] at h
          by_cases hs : s0 = ""
          · subst hs
            rw [gn1_eq_fresh m top rest hm] at h
            obtain rfl := Option.some.inj h
            exact Or.inr (Or.inr ⟨top, MStackVal.Lb "", top,
              MStackVal.Lb (fmtA ((m.a_cnt + 1) % 65536)), rest, rfl, rfl,
              slotEv_refl _, Or.inr ⟨rfl, _, rfl⟩⟩)
          · rw [gn1_eq_stale m top s0 rest hm hs] at h
            obtain rfl := Option.some.inj h
            rw [← hm]
            exact StkAgree_refl m.stk
        · simp only [applyOp] at h
          unfold gn1Op at h
          rw [hm] at h
          cases h
  | gn2 =>
    rcases hm : m.stk with _ | ⟨top, rest⟩
    · simp only [applyOp] at h
      unfold gn2Op at h
      rw [hm] at h
      cases h
    · rcases top with s0 | ⟨r0, b0⟩
      · simp only [applyOp] at h
        by_cases hs : s0 = ""
        · subst hs
          rw [gn2_eq_fresh m rest hm] at h
          obtain rfl := Option.some.inj h
          rcases rest with _ | ⟨b, rest2⟩
          · exact Or.inr (Or.inl ⟨MStackVal.Lb "",
              MStackVal.Lb (fmtB ((m.b_cnt + 1) % 65536)),
              rfl, rfl, Or.inr ⟨rfl, _, rfl⟩⟩)
          · exact Or.inr (Or.inr ⟨MStackVal.Lb "", b,
              MStackVal.Lb (fmtB ((m.b_cnt + 1) % 65536)),
              b, rest2, rfl, rfl, Or.inr ⟨rfl, _, rfl⟩, slotEv_refl _⟩)
        · rw [gn2_eq_stale m s0 rest hm hs] at h
          obtain rfl := Option.some.inj h
          rw [← hm]
          exact StkAgree_refl m.stk
      · simp only [applyOp] at h
        unfold gn2Op at h
        rw [hm] at h
        cases h
  | out =>
    obtain rfl := Option.some.inj h
    exact agree_of_eq rfl
  | lb =>
    obtain rfl := Option.some.inj h
    exact agree_of_eq rfl

/-- Computation of r on a stack with a return marker in third position. -/
lemma rOp_eq (m : MState) (c d : MStackVal) (n : Nat) (blk : Bool)
    (rest : List MStackVal)
    (hm : m.stk = c :: d :: MStackVal.Back n blk :: rest) :
    rOp m = some ({ m with stk :=
      if blk then MStackVal.Lb "" :: MStackVal.Lb "" :: rest else rest }, n) := by
  unfold rOp
  rw [hm]

/-- Executing a frame-balanced operation sequence preserves the stack
below the current frame and evolves the two frame slots monotonically. -/
lemma balanced_agree {ops : List MOp} (hb : FrameBalanced ops) :
    ∀ m m2 : MState, applySeq ops m = some m2 →
      StkAgree m.stk m2.stk := by
  induction hb with
  | nil =>
    intro m m2 h
    obtain rfl := Option.some.inj h
    exact StkAgree_refl _
  | flat op hf ht ih =>
    intro m m2 h
    simp only [applySeq] at h
    cases hstep : applyOp op m with
    | none => rw [hstep] at h; cases h
    | some m1 =>
      rw [hstep] at h
      exact StkAgree_trans (flat_step op hf hstep) (ih m1 m2 h)
  | call n hi ht ihi iht =>
    intro m m2 h
    simp only [applySeq, applyOp] at h
    rw [applySeq_append] at h
    cases hinner : applySeq _ (cllOp m n) with
    | none => rw [hinner] at h; cases h
    | some mI =>
      rw [hinner] at h
      simp only [Option.some_bind] at h
      have hA := ihi _ _ hinner
      have hIstk : ∃ c d, mI.stk = c :: d ::
          MStackVal.Back n (cllCollapse m.stk).1 :: (cllCollapse m.stk).2 := by
        rcases hA with heq | ⟨a, a2, ha1, ha2, _⟩ | ⟨a, b, a2, b2, rest, ha1, ha2, _, _⟩
        · exact ⟨MStackVal.Lb "", MStackVal.Lb "", heq.symm⟩
        · exact absurd ha1 (by simp [cllOp])
        · refine ⟨a2, b2, ?_⟩
          have : MStackVal.Lb "" :: MStackVal.Lb "" ::
              MStackVal.Back n (cllCollapse m.stk).1 :: (cllCollapse m.stk).2 =
              a :: b :: rest := ha1
          rw [ha2]
          injection this with g1 g2
          injection g2 with g3 g4
          rw [g4]
      obtain ⟨c, d, hIstk⟩ := hIstk
      simp only [applySeq, applyOp,
        rOp_eq mI c d n (cllCollapse m.stk).1 (cllCollapse m.stk).2 hIstk,
        Option.map_some] at h
      have hB := iht _ _ h
      have hres := cllCollapse_restore m.stk
      rw [← hres]
      exact hB

lemma fmtA_ne_empty (n : Nat) : fmtA n ≠ "" := by
  intro h
  have h2 := congrArg String.data h
  simp [fmtA] at h2

lemma fmtB_ne_empty (n : Nat) : fmtB n ≠ "" := by
  intro h
  have h2 := congrArg String.data h
  simp [fmtB] at h2

lemma fmtA_ne_fmtB (j k : Nat) : fmtA j ≠ fmtB k := by
  intro h
  have h2 := congrArg String.data h
  simp [fmtA, fmtB] at h2

/-- After a successful gn1, the A-slot of the current frame holds the
emitted label, which is nonempty. -/
lemma gn1_post {m m1 : MState} {l : String} (h : gn1Op m = some (m1, l)) :
    l ≠ "" ∧ ∃ top rest, m1.stk = top :: MStackVal.Lb l :: rest := by
  rcases hm : m.stk with _ | ⟨top, tl⟩
  · unfold gn1Op at h
    rw [hm] at h
    cases h
  · rcases tl with _ | ⟨b, rest⟩
    · unfold gn1Op at h
      rw [hm] at h
      rcases top with s0 | ⟨r0, b0⟩ <;> cases h
    · rcases b with s0 | ⟨r0, b0⟩
      · by_cases hs : s0 = ""
        · subst hs
          rw [gn1_eq_fresh m top rest hm] at h
          obtain ⟨h1, h2⟩ := Prod.mk.injEq .. ▸ Option.some.inj h
          subst h2
          exact ⟨fmtA_ne_empty _, top, rest, by rw [← h1]⟩
        · rw [gn1_eq_stale m top s0 rest hm hs] at h
          obtain ⟨h1, h2⟩ := Prod.mk.injEq .. ▸ Option.some.inj h
          subst h2
          exact ⟨hs, top, rest, by rw [← h1]; exact hm⟩
      · unfold gn1Op at h
        rw [hm] at h
        cases h

/-- After a successful gn2, the B-slot of the current frame holds the
emitted label, which is nonempty. -/
lemma gn2_post {m m1 : MState} {l : String} (h : gn2Op m = some (m1, l)) :
    l ≠ "" ∧ ∃ rest, m1.stk = MStackVal.Lb l :: rest := by
  rcases hm : m.stk with _ | ⟨top, rest⟩
  · unfold gn2Op at h
    rw [hm] at h
    cases h
  · rcases top with s0 | ⟨r0, b0⟩
    · by_cases hs : s0 = ""
      · subst hs
        rw [gn2_eq_fresh m rest hm] at h
        obtain ⟨h1, h2⟩ := Prod.mk.injEq .. ▸ Option.some.inj h
        subst h2
        exact ⟨fmtB_ne_empty _, rest, by rw [← h1]⟩
      · rw [gn2_eq_stale m s0 rest hm hs] at h
        obtain ⟨h1, h2⟩ := Prod.mk.injEq .. ▸ Option.some.inj h
        subst h2
        exact ⟨hs, rest, by rw [← h1]; exact hm⟩
    · unfold gn2Op at h
      rw [hm] at h
      cases h

/-- Each public operation either leaves a label counter unchanged or
advances it by exactly one modulo 2^16 (the wrapping u16 increment of a
fresh gn1/gn2 label). -/
lemma counters_step (op : MOp) (m m2 : MState) (h : applyOp op m = some m2) :
    (m2.a_cnt = m.a_cnt ∨ m2.a_cnt = (m.a_cnt + 1) % 65536) ∧
    (m2.b_cnt = m.b_cnt ∨ m2.b_cnt = (m.b_cnt + 1) % 65536) := by
  cases op with
  | cll n =>
    obtain rfl := Option.some.inj h
    exact ⟨Or.inl rfl, Or.inl rfl⟩
  | ret =>
    rcases hm : m.stk with _ | ⟨c, tl⟩
    · simp only [applyOp] at h
      unfold rOp at h
      rw [hm] at h
      cases h
    · rcases tl with _ | ⟨d, tl2⟩
      · simp only [applyOp] at h
        unfold rOp at h
        rw [hm] at h
        cases h
      · rcases tl2 with _ | ⟨e, rest⟩
        · simp only [applyOp] at h
          unfold rOp at h
          rw [hm] at h
          cases h
        · rcases e with s0 | ⟨r0, b0⟩
          · simp only [applyOp] at h
            unfold rOp at h
            rw [hm] at h
            cases h
          · simp only [applyOp] at h
            rw [rOp_eq m c d r0 b0 rest hm] at h
            simp only [Option.map_some'] at h
            obtain rfl := Option.some.inj h
            exact ⟨Or.inl rfl, Or.inl rfl⟩
  | tst s =>
    obtain rfl := Option.some.inj h
    unfold tstOp tstAt
    split <;> exact ⟨Or.inl rfl, Or.inl rfl⟩
  | id =>
    obtain rfl := Option.some.inj h
    unfold idOp idAt
    split
    · exact ⟨Or.inl rfl, Or.inl rfl⟩
    · split <;> exact ⟨Or.inl rfl, Or.inl rfl⟩
  | num =>
    obtain rfl := Option.some.inj h
    unfold numOp numAt
    split
    · exact ⟨Or.inl rfl, Or.inl rfl⟩
    · split
      · split <;> exact ⟨Or.inl rfl, Or.inl rfl⟩
      · exact ⟨Or.inl rfl, Or.inl rfl⟩
  | sr =>
    obtain rfl := Option.some.inj h
    unfold srOp srAt
    split
    · exact ⟨Or.inl rfl, Or.inl rfl⟩
    · split
      · split <;> exact ⟨Or.inl rfl, Or.inl rfl⟩
      · exact ⟨Or.inl rfl, Or.inl rfl⟩
  | set =>
    obtain rfl := Option.some.inj h
    exact ⟨Or.inl rfl, Or.inl rfl⟩
  | be =>
    obtain rfl := Option.some.inj h
    exact ⟨Or.inl rfl, Or.inl rfl⟩
  | cl s =>
    obtain rfl := Option.some.inj h
    exact ⟨Or.inl rfl, Or.inl rfl⟩
  | ci =>
    obtain rfl := Option.some.inj h
    unfold ciOp
    split <;> exact ⟨Or.inl rfl, Or.inl rfl⟩
  | gn1 =>
    rcases hm : m.stk with _ | ⟨top, tl⟩
    · simp only [applyOp] at h
      unfold gn1Op at h
      rw [hm] at h
      cases h
    · rcases tl with _ | ⟨b, rest⟩
      · simp only [applyOp] at h
        unfold gn1Op at h
        rw [hm] at h
        rcases top with s0 | ⟨r0, b0⟩ <;> cases h
      · rcases b with s0 | ⟨r0, b0⟩
        · simp only [applyOp] at h
          by_cases hs : s0 = ""
          · subst hs
            rw [gn1_eq_fresh m top rest hm] at h
            obtain rfl := Option.some.inj h
            exact ⟨Or.inr rfl, Or.inl rfl⟩
          · rw [gn1_eq_stale m top s0 rest hm hs] at h
            obtain rfl := Option.some.inj h
            exact ⟨Or.inl rfl, Or.inl rfl⟩
        · simp only [applyOp] at h
          unfold gn1Op at h
          rw [hm] at h
          cases h
  | gn2 =>
    rcases hm : m.stk with _ | ⟨top, rest⟩
    · simp only [applyOp] at h
      unfold gn2Op at h
      rw [hm] at h
      cases h
    · rcases top with s0 | ⟨r0, b0⟩
      · simp only [applyOp] at h
        by_cases hs : s0 = ""
        · subst hs
          rw [gn2_eq_fresh m rest hm] at h
          obtain rfl := Option.some.inj h
          exact ⟨Or.inl rfl, Or.inr rfl⟩
        · rw [gn2_eq_stale m s0 rest hm hs] at h
          obtain rfl := Option.some.inj h
          exact ⟨Or.inl rfl, Or.inl rfl⟩
      · simp only [applyOp] at h
        unfold gn2Op at h
        rw [hm] at h
        cases h
  | out =>
    obtain rfl := Option.some.inj h
    exact ⟨Or.inl rfl, Or.inl rfl⟩
  | lb =>
    obtain rfl := Option.some.inj h
    exact ⟨Or.inl rfl, Or.inl rfl⟩

/-- C6 (amended): within one call frame (that is, across any
frame-balanced sequence of further operations), a later GN1 emits the
same label as an earlier GN1, and likewise for GN2; an A-label never
equals a B-label; and each operation either leaves a label counter
unchanged or advances it by one modulo 2^16 — the counters are u16, so
they do not strictly increase at the wrap from 65535 to 0. -/
theorem c6_frame_labels :
    (∀ (m m1 m2 : MState) (l : String) (ops : List MOp),
        gn1Op m = some (m1, l) → FrameBalanced ops → applySeq ops m1 = some m2 →
        (gn1Op m2).map Prod.snd = some l) ∧
    (∀ (m m1 m2 : MState) (l : String) (ops : List MOp),
        gn2Op m = some (m1, l) → FrameBalanced ops → applySeq ops m1 = some m2 →
        (gn2Op m2).map Prod.snd = some l) ∧
    (∀ j k : Nat, fmtA j ≠ fmtB k) ∧
    (∀ (op : MOp) (m m2 : MState), applyOp op m = some m2 →
        (m2.a_cnt = m.a_cnt ∨ m2.a_cnt = (m.a_cnt + 1) % 65536) ∧
        (m2.b_cnt = m.b_cnt ∨ m2.b_cnt = (m.b_cnt + 1) % 65536)) := by
  refine ⟨?_, ?_, fmtA_ne_fmtB, counters_step⟩
  · intro m m1 m2 l ops hg hb hseq
    obtain ⟨hl, top, rest, hstk⟩ := gn1_post hg
    have hA := balanced_agree hb m1 m2 hseq
    rw [hstk] at hA
    rcases hA with heq | ⟨a, a2, ha1, ha2, ha⟩ | ⟨a, b, a2, b2, rest2, ha1, ha2, hsa, hsb⟩
    · rw [gn1_eq_stale m2 top l rest heq.symm hl]
      rfl
    · cases ha1
    · simp only [List.cons.injEq] at ha1
      obtain ⟨g1, g2, g3⟩ := ha1
      have hb2 : b2 = MStackVal.Lb l := by
        rcases g2 ▸ hsb with h2 | ⟨h2, s, hs⟩
        · exact h2.symm
        · exact absurd (by injection h2) hl
      rw [gn1_eq_stale m2 a2 l rest2 (by rw [ha2, hb2]) hl]
      rfl
  · intro m m1 m2 l ops hg hb hseq
    obtain ⟨hl, rest, hstk⟩ := gn2_post hg
    have hA := balanced_agree hb m1 m2 hseq
    rw [hstk] at hA
    rcases hA with heq | ⟨a, a2, ha1, ha2, ha⟩ | ⟨a, b, a2, b2, rest2, ha1, ha2, hsa, hsb⟩
    · rw [gn2_eq_stale m2 l rest heq.symm hl]
      rfl
    · simp only [List.cons.injEq] at ha1
      obtain ⟨g1, g2⟩ := ha1
      have ha2b : a2 = MStackVal.Lb l := by
        rcases g1 ▸ ha with h2 | ⟨h2, s, hs⟩
        · exact h2.symm
        · exact absurd (by injection h2) hl
      rw [gn2_eq_stale m2 l [] (by rw [ha2, ha2b]) hl]
      rfl
    · simp only [List.cons.injEq] at ha1
      obtain ⟨g1, g3⟩ := ha1
      have ha2b : a2 = MStackVal.Lb l := by
        rcases g1 ▸ hsa with h2 | ⟨h2, s, hs⟩
        · exact h2.symm
        · exact absurd (by injection h2) hl
      rw [gn2_eq_stale m2 l (b2 :: rest2) (by rw [ha2, ha2b]) hl]
      rfl

/-! ### The last-lexeme invariant (C5) -/

lemma wsRun_le (l : List Char) : wsRun l ≤ l.length := by
  induction l with
  | nil => exact Nat.le_refl 0
  | cons c cs ih =>
    unfold wsRun
    split
    · exact Nat.succ_le_succ ih
    · exact Nat.zero_le _

lemma takeWhile_take (p : Char → Bool) (l : List Char) :
    l.takeWhile p = l.take (l.takeWhile p).length := by
  induction l with
  | nil => rfl
  | cons c cs ih =>
    by_cases hc : p c
    · simp only [List.takeWhile_cons, hc, if_true, List.length_cons, List.take_succ_cons]
      rw [← ih]
    · simp [List.takeWhile_cons, hc]

lemma takeWhile_le (p : Char → Bool) (l : List Char) :
    (l.takeWhile p).length ≤ l.length :=
  List.IsPrefix.length_le ⟨l.dropWhile p, List.takeWhile_append_dropWhile p l⟩

lemma takeWhile_boundary (p : Char → Bool) (l : List Char)
    (h : (l.takeWhile p).length < l.length) :
    ∃ x, p x = false ∧
      l.take ((l.takeWhile p).length + 1) = l.takeWhile p ++ [x] := by
  induction l with
  | nil => cases h
  | cons c cs ih =>
    by_cases hc : p c
    · simp only [List.takeWhile_cons, hc, if_true, List.length_cons] at h ⊢
      obtain ⟨x, hx, he⟩ := ih (Nat.lt_of_succ_lt_succ h)
      exact ⟨x, hx, by simp [List.take_succ_cons, he]⟩
    · refine ⟨c, by simpa using hc, ?_⟩
      simp [List.takeWhile_cons, hc]

lemma lastS_slice {m2 : MState} (a k : Nat) (hin : a + k ≤ m2.input.length)
    (hpos : m2.pos = a + k) (hlast : m2.last = (m2.input.drop a).take k) :
    LastS m2 := by
  refine ⟨a + k, Nat.le_of_eq hpos.symm, ?_⟩
  have hlen : m2.last.length = k := by
    rw [hlast, List.length_take, List.length_drop]
    omega
  rw [hlen]
  have h2 : a + k - k = a := by omega
  rw [h2, hlast]
  exact List.take_drop a k _

lemma lastS_carry {m m2 : MState} (hin : m2.input = m.input)
    (hlast : m2.last = m.last) (hpos : m.pos ≤ m2.pos) (h : LastS m) :
    LastS m2 := by
  obtain ⟨e, he, hl⟩ := h
  exact ⟨e, Nat.le_trans he hpos, by rw [hin, hlast]; exact hl⟩

lemma eatWs_inv (m : MState) :
    (eatWs m).input = m.input ∧ m.pos ≤ (eatWs m).pos ∧
      (MInv m → MInv (eatWs m)) := by
  refine ⟨rfl, ?_, ?_⟩
  · show m.pos ≤ m.pos + wsRun (m.input.drop m.pos)
    omega
  · rintro ⟨hp, hl⟩
    have hle := wsRun_le (m.input.drop m.pos)
    rw [List.length_drop] at hle
    constructor
    · show m.pos + wsRun (m.input.drop m.pos) ≤ m.input.length
      omega
    · refine @lastS_carry m (eatWs m) rfl rfl ?_ hl
      show m.pos ≤ m.pos + wsRun (m.input.drop m.pos)
      omega

lemma tstAt_inv (m : MState) (s : List Char) :
    (tstAt m s).input = m.input ∧ m.pos ≤ (tstAt m s).pos ∧
      (MInv m → MInv (tstAt m s)) := by
  unfold tstAt
  split
  · next hcond =>
    have hcl := congrArg List.length hcond
    rw [List.length_take, List.length_drop] at hcl
    refine ⟨rfl, ?_, ?_⟩
    · show m.pos ≤ m.pos + s.length
      omega
    · rintro ⟨hp, -⟩
      have hk : s.length ≤ m.input.length - m.pos := by omega
      refine ⟨?_, ?_⟩
      · show m.pos + s.length ≤ m.input.length
        omega
      · refine lastS_slice m.pos s.length ?_ rfl rfl
        show m.pos + s.length ≤ m.input.length
        omega
  · exact ⟨rfl, Nat.le_refl _,
      fun hv => ⟨hv.1, lastS_carry rfl rfl (Nat.le_refl _) hv.2⟩⟩

lemma idAt_inv (m : MState) :
    (idAt m).input = m.input ∧ m.pos ≤ (idAt m).pos ∧
      (MInv m → MInv (idAt m)) := by
  unfold idAt
  split
  · exact ⟨rfl, Nat.le_refl _,
      fun hv => ⟨hv.1, lastS_carry rfl rfl (Nat.le_refl _) hv.2⟩⟩
  · split
    · have hk : (idTok (m.input.drop m.pos)).length ≤ m.input.length - m.pos := by
        have := takeWhile_le isAsciiAlnum (m.input.drop m.pos)
        rw [List.length_drop] at this
        exact this
      refine ⟨rfl, ?_, ?_⟩
      · show m.pos ≤ m.pos + (idTok (m.input.drop m.pos)).length
        omega
      · rintro ⟨hp, -⟩
        refine ⟨?_, ?_⟩
        · show m.pos + (idTok (m.input.drop m.pos)).length ≤ m.input.length
          omega
        · refine lastS_slice m.pos (idTok (m.input.drop m.pos)).length ?_ rfl
            (takeWhile_take _ _)
          show m.pos + (idTok (m.input.drop m.pos)).length ≤ m.input.length
          omega
    · exact ⟨rfl, Nat.le_refl _,
        fun hv => ⟨hv.1, lastS_carry rfl rfl (Nat.le_refl _) hv.2⟩⟩

lemma numAt_inv (m : MState) :
    (numAt m).input = m.input ∧ m.pos ≤ (numAt m).pos ∧
      (MInv m → MInv (numAt m)) := by
  unfold numAt
  split
  · exact ⟨rfl, Nat.le_refl _,
      fun hv => ⟨hv.1, lastS_carry rfl rfl (Nat.le_refl _) hv.2⟩⟩
  · split
    · split
      · exact ⟨rfl, Nat.le_refl _,
          fun hv => ⟨hv.1, lastS_carry rfl rfl (Nat.le_refl _) hv.2⟩⟩
      · have hk : (numTok (m.input.drop m.pos)).length ≤ m.input.length - m.pos := by
          have := takeWhile_le (fun c2 => c2 = '.' || isAsciiDigit c2)
            (m.input.drop m.pos)
          rw [List.length_drop] at this
          exact this
        refine ⟨rfl, ?_, ?_⟩
        · show m.pos ≤ m.pos + (numTok (m.input.drop m.pos)).length
          omega
        · rintro ⟨hp, -⟩
          refine ⟨?_, ?_⟩
          · show m.pos + (numTok (m.input.drop m.pos)).length ≤ m.input.length
            omega
          · refine lastS_slice m.pos (numTok (m.input.drop m.pos)).length ?_ rfl
              (takeWhile_take _ _)
            show m.pos + (numTok (m.input.drop m.pos)).length ≤ m.input.length
            omega
    · exact ⟨rfl, Nat.le_refl _,
        fun hv => ⟨hv.1, lastS_carry rfl rfl (Nat.le_refl _) hv.2⟩⟩

/-- The string token is exactly the corresponding slice of the scanned
characters, and fits inside them. -/
lemma srTok_slice (c : Char) (rest1 : List Char) (hq : c = quoteChar) :
    (srTok rest1).length ≤ rest1.length + 1 ∧
      srTok rest1 = (c :: rest1).take (srTok rest1).length := by
  unfold srTok
  split
  · next hfound =>
    obtain ⟨x, hx, hb⟩ := takeWhile_boundary notQuote rest1 hfound
    have hxq : x = quoteChar := by
      unfold notQuote at hx
      simpa using hx
    constructor
    · simp only [List.length_cons, List.length_append, List.length_nil]
      omega
    · have h2 : (quoteChar :: (rest1.takeWhile notQuote ++ [quoteChar])).length =
          (rest1.takeWhile notQuote).length + 1 + 1 := by
        simp only [List.length_cons, List.length_append, List.length_nil]
      rw [h2, List.take_succ_cons, hb, hq, hxq]
  · next hnf =>
    push_neg at hnf
    have hlen : (rest1.takeWhile notQuote).length = rest1.length :=
      Nat.le_antisymm (takeWhile_le notQuote rest1) hnf
    have heq : rest1.takeWhile notQuote = rest1 := by
      rw [takeWhile_take notQuote rest1, hlen, List.take_length]
    constructor
    · simp only [List.length_cons]
      have := takeWhile_le notQuote rest1
      omega
    · rw [heq]
      have h2 : (quoteChar :: rest1).length = rest1.length + 1 := by
        simp only [List.length_cons]
      rw [h2, List.take_succ_cons, List.take_length, hq]

lemma srAt_inv (m : MState) :
    (srAt m).input = m.input ∧ m.pos ≤ (srAt m).pos ∧
      (MInv m → MInv (srAt m)) := by
  unfold srAt
  split
  · exact ⟨rfl, Nat.le_refl _,
      fun hv => ⟨hv.1, lastS_carry rfl rfl (Nat.le_refl _) hv.2⟩⟩
  · next c rest1 hrest =>
    split
    · next hq =>
      split
      · obtain ⟨hkle, hslice⟩ := srTok_slice c rest1 hq
        have hrl : rest1.length + 1 = m.input.length - m.pos := by
          have := congrArg List.length hrest
          rw [List.length_drop] at this
          simp only [List.length_cons] at this
          omega
        refine ⟨rfl, ?_, ?_⟩
        · show m.pos ≤ m.pos + (srTok rest1).length
          omega
        · rintro ⟨hp, -⟩
          refine ⟨?_, ?_⟩
          · show m.pos + (srTok rest1).length ≤ m.input.length
            omega
          · refine lastS_slice m.pos (srTok rest1).length ?_ rfl ?_
            · show m.pos + (srTok rest1).length ≤ m.input.length
              omega
            · show srTok rest1 = (m.input.drop m.pos).take (srTok rest1).length
              rw [hrest]
              exact hslice
      · exact ⟨rfl, Nat.le_refl _,
          fun hv => ⟨hv.1, lastS_carry rfl rfl (Nat.le_refl _) hv.2⟩⟩
    · exact ⟨rfl, Nat.le_refl _,
        fun hv => ⟨hv.1, lastS_carry rfl rfl (Nat.le_refl _) hv.2⟩⟩

lemma inv_compose {m m1 m2 : MState}
    (h1 : m1.input = m.input ∧ m.pos ≤ m1.pos ∧ (MInv m → MInv m1))
    (h2 : m2.input = m1.input ∧ m1.pos ≤ m2.pos ∧ (MInv m1 → MInv m2)) :
    m2.input = m.input ∧ m.pos ≤ m2.pos ∧ (MInv m → MInv m2) :=
  ⟨h2.1.trans h1.1, Nat.le_trans h1.2.1 h2.2.1, fun hv => h2.2.2 (h1.2.2 hv)⟩

/-- Every public operation keeps the input, never moves pos backwards, and
preserves the scanner invariant. -/
lemma step_inv (op : MOp) (m m2 : MState) (h : applyOp op m = some m2) :
    m2.input = m.input ∧ m.pos ≤ m2.pos ∧ (MInv m → MInv m2) := by
  cases op with
  | tst s =>
    obtain rfl := Option.some.inj h
    exact inv_compose (eatWs_inv m) (tstAt_inv (eatWs m) s)
  | id =>
    obtain rfl := Option.some.inj h
    exact inv_compose (eatWs_inv m) (idAt_inv (eatWs m))
  | num =>
    obtain rfl := Option.some.inj h
    exact inv_compose (eatWs_inv m) (numAt_inv (eatWs m))
  | sr =>
    obtain rfl := Option.some.inj h
    exact inv_compose (eatWs_inv m) (srAt_inv (eatWs m))
  | set =>
    obtain rfl := Option.some.inj h
    exact ⟨rfl, Nat.le_refl _, fun hv => ⟨hv.1, lastS_carry rfl rfl (Nat.le_refl _) hv.2⟩⟩
  | be =>
    obtain rfl := Option.some.inj h
    exact ⟨rfl, Nat.le_refl _, fun hv => hv⟩
  | cll n =>
    obtain rfl := Option.some.inj h
    exact ⟨rfl, Nat.le_refl _, fun hv => ⟨hv.1, lastS_carry rfl rfl (Nat.le_refl _) hv.2⟩⟩
  | ret =>
    rcases hm : m.stk with _ | ⟨c, tl⟩
    · simp only [applyOp] at h
      unfold rOp at h
      rw [hm] at h
      cases h
    rcases tl with _ | ⟨d, tl2⟩
    · simp only [applyOp] at h
      unfold rOp at h
      rw [hm] at h
      cases h
    rcases tl2 with _ | ⟨e, rest⟩
    · simp only [applyOp] at h
      unfold rOp at h
      rw [hm] at h
      cases h
    rcases e with s0 | ⟨r0, b0⟩
    · simp only [applyOp] at h
      unfold rOp at h
      rw [hm] at h
      cases h
    · simp only [applyOp] at h
      rw [rOp_eq m c d r0 b0 rest hm] at h
      simp only [Option.map_some'] at h
      obtain rfl := Option.some.inj h
      exact ⟨rfl, Nat.le_refl _, fun hv => ⟨hv.1, lastS_carry rfl rfl (Nat.le_refl _) hv.2⟩⟩
  | cl s =>
    obtain rfl := Option.some.inj h
    exact ⟨rfl, Nat.le_refl _, fun hv => ⟨hv.1, lastS_carry rfl rfl (Nat.le_refl _) hv.2⟩⟩
  | ci =>
    obtain rfl := Option.some.inj h
    unfold ciOp
    split <;>
      exact ⟨rfl, Nat.le_refl _, fun hv => ⟨hv.1, lastS_carry rfl rfl (Nat.le_refl _) hv.2⟩⟩
  | gn1 =>
    cases hg : gn1Op m with
    | none =>
      simp only [applyOp, hg, Option.map_none'] at h
      cases h
    | some p =>
      simp only [applyOp, hg, Option.map_some'] at h
      obtain rfl := Option.some.inj h
      obtain ⟨hi, hpo, hla⟩ : p.1.input = m.input ∧ p.1.pos = m.pos ∧ p.1.last = m.last := by
        rcases hm : m.stk with _ | ⟨top, tl⟩
        · unfold gn1Op at hg
          rw [hm] at hg
          cases hg
        · rcases tl with _ | ⟨b, rest⟩
          · unfold gn1Op at hg
            rw [hm] at hg
            rcases top with s0 | ⟨r0, b0⟩ <;> cases hg
          · rcases b with s0 | ⟨r0, b0⟩
            · by_cases hs : s0 = ""
              · subst hs
                rw [gn1_eq_fresh m top rest hm] at hg
                obtain rfl := Option.some.inj hg
                exact ⟨rfl, rfl, rfl⟩
              · rw [gn1_eq_stale m top s0 rest hm hs] at hg
                obtain rfl := Option.some.inj hg
                exact ⟨rfl, rfl, rfl⟩
            · unfold gn1Op at hg
              rw [hm] at hg
              cases hg
      exact ⟨hi, Nat.le_of_eq hpo.symm,
        fun hv => ⟨by rw [hi, hpo]; exact hv.1,
          lastS_carry hi hla (Nat.le_of_eq hpo.symm) hv.2⟩⟩
  | gn2 =>
    cases hg : gn2Op m with
    | none =>
      simp only [applyOp, hg, Option.map_none'] at h
      cases h
    | some p =>
      simp only [applyOp, hg, Option.map_some'] at h
      obtain rfl := Option.some.inj h
      obtain ⟨hi, hpo, hla⟩ : p.1.input = m.input ∧ p.1.pos = m.pos ∧ p.1.last = m.last := by
        rcases hm : m.stk with _ | ⟨top, rest⟩
        · unfold gn2Op at hg
          rw [hm] at hg
          cases hg
        · rcases top with s0 | ⟨r0, b0⟩
          · by_cases hs : s0 = ""
            · subst hs
              rw [gn2_eq_fresh m rest hm] at hg
              obtain rfl := Option.some.inj hg
              exact ⟨rfl, rfl, rfl⟩
            · rw [gn2_eq_stale m s0 rest hm hs] at hg
              obtain rfl := Option.some.inj hg
              exact ⟨rfl, rfl, rfl⟩
          · unfold gn2Op at hg
            rw [hm] at hg
            cases hg
      exact ⟨hi, Nat.le_of_eq hpo.symm,
        fun hv => ⟨by rw [hi, hpo]; exact hv.1,
          lastS_carry hi hla (Nat.le_of_eq hpo.symm) hv.2⟩⟩
  | out =>
    obtain rfl := Option.some.inj h
    exact ⟨rfl, Nat.le_refl _, fun hv => ⟨hv.1, lastS_carry rfl rfl (Nat.le_refl _) hv.2⟩⟩
  | lb =>
    obtain rfl := Option.some.inj h
    exact ⟨rfl, Nat.le_refl _, fun hv => ⟨hv.1, lastS_carry rfl rfl (Nat.le_refl _) hv.2⟩⟩

lemma seq_inv (ops : List MOp) : ∀ m m2 : MState,
    applySeq ops m = some m2 → MInv m → MInv m2 := by
  induction ops with
  | nil =>
    intro m m2 h hv
    obtain rfl := Option.some.inj h
    exact hv
  | cons op t ih =>
    intro m m2 h hv
    simp only [applySeq] at h
    cases hstep : applyOp op m with
    | none => rw [hstep] at h; cases h
    | some m1 =>
      rw [hstep] at h
      exact ih m1 m2 h ((step_inv op m m1 hstep).2.2 hv)

lemma mInit_inv (input : String) : MInv (mInit input) := by
  constructor
  · show 0 ≤ input.data.length
    exact Nat.zero_le _
  · exact ⟨0, Nat.le_refl 0, rfl⟩

/-- C5 (amended): after any sequence of public operations from the initial
state, when the switch is true the last lexeme is a contiguous slice of
the input ending at some position at or before pos (SET can leave last
ending strictly before pos, so "ending exactly at pos" does not hold). -/
theorem c5_last_slice (input : String) (ops : List MOp) (m2 : MState)
    (h : applySeq ops (mInit input) = some m2) (_hsw : m2.sw = true) :
    ∃ e, e ≤ m2.pos ∧ m2.last = (m2.input.take e).drop (e - m2.last.length) :=
  (seq_inv ops (mInit input) m2 h (mInit_inv input)).2

theorem c5_last_slice_witness :
    applySeq [MOp.tst ['a']] (mInit "a") = some c5wState ∧
    c5wState.sw = true ∧
    ∃ e, e ≤ c5wState.pos ∧
      c5wState.last = (c5wState.input.take e).drop (e - c5wState.last.length) :=
  ⟨by decide, by decide,
   c5_last_slice "a" [MOp.tst ['a']] c5wState (by decide) (by decide)⟩

theorem c5_counterexample :
    applySeq [MOp.tst ['a'], MOp.num, MOp.set] (mInit "a b") = some c5ctrState ∧
    c5ctrState.sw = true ∧
    c5ctrState.last ≠ (c5ctrState.input.take c5ctrState.pos).drop
      (c5ctrState.pos - c5ctrState.last.length) := by
  decide

theorem c6_frame_labels_witness :
    gn1Op c6wM = some (c6wM1, "A001") ∧
    FrameBalanced [MOp.cl "x"] ∧
    applySeq [MOp.cl "x"] c6wM1 = some c6wM2 ∧
    (gn1Op c6wM2).map Prod.snd = some "A001" ∧
    fmtA 1 ≠ fmtB 1 ∧
    (c6wM1.a_cnt = c6wM.a_cnt ∨ c6wM1.a_cnt = (c6wM.a_cnt + 1) % 65536) ∧
    (c6wM1.b_cnt = c6wM.b_cnt ∨ c6wM1.b_cnt = (c6wM.b_cnt + 1) % 65536) :=
  ⟨by decide,
   FrameBalanced.flat (MOp.cl "x") rfl FrameBalanced.nil,
   by decide,
   c6_frame_labels.1 c6wM c6wM1 c6wM2 "A001" [MOp.cl "x"] (by decide)
     (FrameBalanced.flat (MOp.cl "x") rfl FrameBalanced.nil) (by decide),
   c6_frame_labels.2.2.1 1 1,
   (c6_frame_labels.2.2.2 MOp.gn1 c6wM c6wM1 (by decide)).1,
   (c6_frame_labels.2.2.2 MOp.gn1 c6wM c6wM1 (by decide)).2⟩

/-- C6 counterexample: at a_cnt = 65535 a fresh gn1 wraps the u16 counter
to 0 (emitting the label A000), so the counters do not only ever strictly
increase. -/
theorem c6_counterexample :
    applyOp MOp.gn1 c6ctrM = some c6ctrM1 ∧
    ¬ (c6ctrM.a_cnt ≤ c6ctrM1.a_cnt) := by
  decide

/-- C4 (amended): the remaining input reported by left is the suffix of
the input starting at pos with exactly its leading whitespace run removed,
not the untrimmed suffix itself. -/
theorem c4_left_trims (m : MState) :
    ((m.input.drop m.pos).takeWhile isAsciiWs).all isAsciiWs = true ∧
    (m.input.drop m.pos).takeWhile isAsciiWs ++ (mleft m).data =
      m.input.drop m.pos := by
  constructor
  · rw [List.all_eq_true]
    intro c hc
    exact List.mem_takeWhile_imp hc
  · exact List.takeWhile_append_dropWhile _ _

/-- C1 (amended): an accepted instruction line advances the u32 address
(modulo 2^32) by exactly 2 when the mnemonic carries an argument token
and by exactly 1 when it is nullary, while a BLK line advances it by the
saturating `as u32` cast of the f64 value of its literal without emitting
an instruction; a label line records the current address for the label
(and the current instruction index for that address) and changes neither
the address nor the instruction vector. -/
theorem c1_addr_advance :
    (∀ {I : Type} (ops : InstrOps I) (ins : String) (tok : Token)
        (p res : MProg I),
      addInstrCore ops ins tok p = Except.ok (false, res) →
      (res.labels = p.labels ∧ res.ics = p.ics) ∧
      ((∃ num den, tok = Token.Num num den ∧ ins = "BLK" ∧
          res.instrs = p.instrs ∧
          res.addr = (p.addr + f64ToU32sat (decToF64 num den)) % 4294967296) ∨
       (∃ i, res.instrs = p.instrs ++ [i] ∧
          ((tok.isArg = true ∧ res.addr = (p.addr + 2) % 4294967296) ∨
           (tok.isArg = false ∧ res.addr = (p.addr + 1) % 4294967296))))) ∧
    (∀ {I : Type} (p : MProg I) (l : String),
      alookup (addLabel p l).labels l = some p.addr ∧
      alookup (addLabel p l).ics p.addr = some p.instrs.length ∧
      (addLabel p l).addr = p.addr ∧ (addLabel p l).instrs = p.instrs) := by
  constructor
  · intro I ops ins tok p res h
    cases tok with
    | WS => cases h
    | Id label =>
      simp only [addInstrCore, addEmit] at h
      split at h
      · cases h
      · injection h with hp
        injection hp with h1 h2
        subst h2
        exact ⟨⟨rfl, rfl⟩, Or.inr ⟨ops.withLabel ins label, rfl, Or.inl ⟨rfl, rfl⟩⟩⟩
    | Num num den =>
      simp only [addInstrCore, addEmit] at h
      split at h
      · next hins =>
        split at h
        · cases h
        · split at h
          · cases h
          · injection h with hp
            injection hp with h1 h2
            subst h2
            exact ⟨⟨rfl, rfl⟩, Or.inl ⟨num, den, rfl, hins, rfl, rfl⟩⟩
      · split at h
        · cases h
        · injection h with hp
          injection hp with h1 h2
          subst h2
          exact ⟨⟨rfl, rfl⟩, Or.inr ⟨ops.withNum ins num den, rfl, Or.inl ⟨rfl, rfl⟩⟩⟩
    | Str s =>
      simp only [addInstrCore, addEmit] at h
      split at h
      · cases h
      · injection h with hp
        injection hp with h1 h2
        subst h2
        exact ⟨⟨rfl, rfl⟩, Or.inr ⟨ops.withString ins s, rfl, Or.inl ⟨rfl, rfl⟩⟩⟩
    | Symbol s =>
      simp only [addInstrCore, addEmit] at h
      split at h
      · cases h
      · split at h
        · injection h with hp
          injection hp with h1 h2
          cases h1
        · split at h
          · cases h
          · injection h with hp
            injection hp with h1 h2
            subst h2
            exact ⟨⟨rfl, rfl⟩, Or.inr ⟨ops.withNoarg ins, rfl, Or.inr ⟨rfl, rfl⟩⟩⟩
    | End =>
      simp only [addInstrCore, addEmit] at h
      split at h
      · injection h with hp
        injection hp with h1 h2
        cases h1
      · split at h
        · cases h
        · injection h with hp
          injection hp with h1 h2
          subst h2
          exact ⟨⟨rfl, rfl⟩, Or.inr ⟨ops.withNoarg ins, rfl, Or.inr ⟨rfl, rfl⟩⟩⟩
  · intro I p l
    refine ⟨?_, ?_, rfl, rfl⟩
    · unfold addLabel alookup
      rw [if_pos rfl]
    · unfold addLabel alookup
      rw [if_pos rfl]

/-- C1 counterexample: assembling a nullary instruction line before a
label gives the label address 1, not 2 as the claim (2 per real
instruction) would demand. -/
theorem c1_counterexample :
    (mparseText mvmOps " R\nL\n END").toOption.map (fun p => alookup p.labels "L") =
      some (some 1) ∧ (1 : Nat) ≠ 2 := by
  constructor
  · decide
  · decide

theorem c1_addr_advance_witness :
    (addInstrCore mvmOps "R" Token.End (⟨[], [], [], 0⟩ : MProg MInstr) =
      Except.ok (false, (⟨[MInstr.R], [], [], 1⟩ : MProg MInstr))) ∧
    (((⟨[MInstr.R], [], [], 1⟩ : MProg MInstr).labels =
        (⟨[], [], [], 0⟩ : MProg MInstr).labels ∧
      (⟨[MInstr.R], [], [], 1⟩ : MProg MInstr).ics =
        (⟨[], [], [], 0⟩ : MProg MInstr).ics) ∧
     ((∃ num den, Token.End = Token.Num num den ∧ "R" = "BLK" ∧
         (⟨[MInstr.R], [], [], 1⟩ : MProg MInstr).instrs =
           (⟨[], [], [], 0⟩ : MProg MInstr).instrs ∧
         (⟨[MInstr.R], [], [], 1⟩ : MProg MInstr).addr =
           (0 + f64ToU32sat (decToF64 num den)) % 4294967296) ∨
      (∃ i, (⟨[MInstr.R], [], [], 1⟩ : MProg MInstr).instrs = [] ++ [i] ∧
         ((Token.End.isArg = true ∧
             (⟨[MInstr.R], [], [], 1⟩ : MProg MInstr).addr =
               (0 + 2) % 4294967296) ∨
          (Token.End.isArg = false ∧
             (⟨[MInstr.R], [], [], 1⟩ : MProg MInstr).addr =
               (0 + 1) % 4294967296))))) ∧
    (addInstrCore blkOps "BLK" (Token.Num 5000000000 0)
        (⟨[], [], [], 0⟩ : MProg Unit) =
      Except.ok (false, (⟨[], [], [], 4294967295⟩ : MProg Unit))) ∧
    ((∃ num den, Token.Num 5000000000 0 = Token.Num num den ∧ "BLK" = "BLK" ∧
        (⟨[], [], [], 4294967295⟩ : MProg Unit).instrs =
          (⟨[], [], [], 0⟩ : MProg Unit).instrs ∧
        (⟨[], [], [], 4294967295⟩ : MProg Unit).addr =
          (0 + f64ToU32sat (decToF64 num den)) % 4294967296) ∨
     (∃ i, (⟨[], [], [], 4294967295⟩ : MProg Unit).instrs = [] ++ [i] ∧
        (((Token.Num 5000000000 0).isArg = true ∧
            (⟨[], [], [], 4294967295⟩ : MProg Unit).addr =
              (0 + 2) % 4294967296) ∨
         ((Token.Num 5000000000 0).isArg = false ∧
            (⟨[], [], [], 4294967295⟩ : MProg Unit).addr =
              (0 + 1) % 4294967296)))) ∧
    alookup (addLabel (⟨[], [], [], 0⟩ : MProg MInstr) "L").labels "L" = some 0 :=
  ⟨by decide,
   c1_addr_advance.1 mvmOps "R" Token.End ⟨[], [], [], 0⟩ ⟨[MInstr.R], [], [], 1⟩
     (by decide),
   by decide,
   (c1_addr_advance.1 blkOps "BLK" (Token.Num 5000000000 0) ⟨[], [], [], 0⟩
     ⟨[], [], [], 4294967295⟩ (by decide)).2,
   (c1_addr_advance.2 (⟨[], [], [], 0⟩ : MProg MInstr) "L").1⟩

/-- C2 counterexample: the run of the trivial program on the empty source
does not succeed with an eight-space output; the switch is never set, so
finalization rejects. -/
theorem c2_counterexample :
    (mvmRun c2text "" 50).map (fun m => generatedE m) ≠
      some (Except.ok "        ") := by
  decide

/-- C2 (amended): executing the program assembled from the trivial
identity text against the empty source leaves the switch false, so
finalization fails (generated returns the Unexpected error); the
untouched output buffer still holds exactly eight spaces and the
remaining input is empty. -/
theorem c2_trivial_program_fails :
    (mvmRun c2text "" 50).map (fun m => (generatedE m, m.output, mleft m, m.sw)) =
      some (Except.error (), "        ", "", false) := by
  decide

/-- C4 counterexample: on the source text of one space and one letter the
failed run reports the remainder with its leading space removed, not the
untrimmed suffix. -/
theorem c4_counterexample :
    (mvmRun c4text " x" 50).map
      (fun m => (generatedE m, mleft m, String.mk (m.input.drop m.pos))) =
      some (Except.error (), "x", " x") ∧ ("x" : String) ≠ " x" := by
  constructor
  · decide
  · decide

/-- C7: against the source 12..33 the NUM scan rejects (adjacent dots)
without advancing pos, BE raises a recognition failure, and the reported
remaining input is the whole source. -/
theorem c7_num_failure :
    (mvmRun c7text "12..33" 50).map (fun m => (generatedE m, mleft m, m.pos)) =
      some (Except.error (), "12..33", 0) := by
  decide

lemma resolveOne_ok {I : Type} (ops : InstrOps I) (labels : List (String × Nat))
    (ics : List (Nat × Nat)) (len : Nat) (i : I)
    (h : Resolvable ops labels ics len i) :
    ∃ i2, resolveOne ops labels ics len i = Except.ok i2 := by
  unfold resolveOne
  cases ha : ops.aaaOf i with
  | noAAA => exact ⟨i, rfl⟩
  | mem aaa =>
    obtain ⟨addr, i2, h1, h2⟩ := h.1 aaa ha
    refine ⟨i2, ?_⟩
    simp only [h1, h2]
  | ic aaa =>
    obtain ⟨addr, k, i2, h1, h2, h3, h4⟩ := h.2 aaa ha
    refine ⟨i2, ?_⟩
    simp only [h1, h2]
    rw [if_neg (by omega)]
    simp only [h4]

lemma resolveList_ok {I : Type} (ops : InstrOps I) (labels : List (String × Nat))
    (ics : List (Nat × Nat)) (len : Nat) :
    ∀ instrs : List I, (∀ i ∈ instrs, Resolvable ops labels ics len i) →
      ∃ out, resolveList ops labels ics len instrs = Except.ok out := by
  intro instrs
  induction instrs with
  | nil => exact fun _ => ⟨[], rfl⟩
  | cons i rest ih =>
    intro hres
    obtain ⟨i2, h2⟩ := resolveOne_ok ops labels ics len i (hres i (by simp))
    obtain ⟨out, hout⟩ := ih (fun j hj => hres j (by simp [hj]))
    refine ⟨i2 :: out, ?_⟩
    unfold resolveList
    rw [h2, hout]

lemma resolveList_err {I : Type} (ops : InstrOps I) (labels : List (String × Nat))
    (ics : List (Nat × Nat)) (len : Nat) (i : I) (aaa : String)
    (hm : ops.aaaOf i = AAAUse.mem aaa ∨ ops.aaaOf i = AAAUse.ic aaa)
    (hl : alookup labels aaa = none) :
    ∀ pre post : List I, (∀ j ∈ pre, Resolvable ops labels ics len j) →
      resolveList ops labels ics len (pre ++ i :: post) =
        Except.error ("unknown label " ++ aaa) := by
  have hone : resolveOne ops labels ics len i =
      Except.error ("unknown label " ++ aaa) := by
    unfold resolveOne
    rcases hm with ha | ha <;> simp only [ha, hl]
  intro pre
  induction pre with
  | nil =>
    intro post _
    show resolveList ops labels ics len (i :: post) = _
    unfold resolveList
    rw [hone]
  | cons j rest ih =>
    intro post hres
    obtain ⟨j2, hj⟩ := resolveOne_ok ops labels ics len j (hres j (by simp))
    show resolveList ops labels ics len (j :: (rest ++ i :: post)) = _
    unfold resolveList
    rw [hj, ih post (fun j2 hj2 => hres j2 (by simp [hj2]))]

/-- C8: when every label-carrying instruction references a label with a
recorded address whose instruction index exists and lies inside the
program, the resolution pass succeeds; and when an instruction references
a label that is declared nowhere (all instructions before it resolving),
resolution fails with a message containing that label. -/
theorem c8_resolution :
    (∀ {I : Type} (ops : InstrOps I) (labels : List (String × Nat))
        (ics : List (Nat × Nat)) (len : Nat) (instrs : List I),
      (∀ i ∈ instrs, Resolvable ops labels ics len i) →
      ∃ out, resolveList ops labels ics len instrs = Except.ok out) ∧
    (∀ {I : Type} (ops : InstrOps I) (labels : List (String × Nat))
        (ics : List (Nat × Nat)) (len : Nat) (pre post : List I) (i : I)
        (aaa : String),
      (∀ j ∈ pre, Resolvable ops labels ics len j) →
      (ops.aaaOf i = AAAUse.mem aaa ∨ ops.aaaOf i = AAAUse.ic aaa) →
      alookup labels aaa = none →
      resolveList ops labels ics len (pre ++ i :: post) =
        Except.error ("unknown label " ++ aaa)) :=
  ⟨fun ops labels ics len instrs hres => resolveList_ok ops labels ics len instrs hres,
   fun ops labels ics len pre post i aaa hres hm hl =>
     resolveList_err ops labels ics len i aaa hm hl pre post hres⟩

theorem c8_resolution_witness :
    (∃ out, resolveList mvmOps [("S", 2)] [(2, 1)] 2
        [MInstr.R, MInstr.CLL "S" 0] = Except.ok out) ∧
    resolveList mvmOps [] [] 1 ([] ++ MInstr.B "X" 0 :: []) =
      Except.error ("unknown label " ++ "X") :=
  ⟨c8_resolution.1 mvmOps [("S", 2)] [(2, 1)] 2 [MInstr.R, MInstr.CLL "S" 0]
     (by
       intro i hi
       rw [List.mem_cons, List.mem_singleton] at hi
       rcases hi with rfl | rfl
       · unfold Resolvable
         exact ⟨fun aaa ha => (by cases ha), fun aaa ha => (by cases ha)⟩
       · unfold Resolvable
         refine ⟨fun aaa ha => (by cases ha), fun aaa ha => ?_⟩
         obtain rfl : "S" = aaa := by injection ha
         exact ⟨2, 1, MInstr.CLL "S" 1, rfl, rfl, by omega, rfl⟩),
   c8_resolution.2 mvmOps [] [] 1 [] [] (MInstr.B "X" 0) "X"
     (by intro j hj; cases hj) (Or.inr rfl) rfl⟩

lemma takeWhile_all (p : Char → Bool) :
    ∀ s : List Char, (∀ c ∈ s, p c = true) → s.takeWhile p = s := by
  intro s
  induction s with
  | nil => exact fun _ => rfl
  | cons c cs ih =>
    intro h
    rw [List.takeWhile_cons, if_pos (h c (by simp))]
    rw [ih (fun c2 hc2 => h c2 (by simp [hc2]))]

/-- C10: a quoted-string token whose input ends before a closing quote is
returned as a successful Str token holding every character after the
opening quote; the lexer reports no error and consumes the whole input. -/
theorem c10_unterminated_string (syms : List (List Char)) (s : List Char)
    (h : ∀ c ∈ s, c ≠ quoteChar) :
    nextToken syms (quoteChar :: s) =
      Except.ok (Token.Str (String.mk s), []) := by
  simp only [nextToken]
  rw [if_neg (show ¬ (isAsciiWs quoteChar = true) from by decide),
    if_neg (show ¬ (isAsciiAlpha quoteChar = true) from by decide),
    if_neg (show ¬ (isAsciiDigit quoteChar = true) from by decide),
    if_pos trivial]
  have htw : s.takeWhile notQuote = s :=
    takeWhile_all notQuote s (fun c hc => by
      unfold notQuote
      simpa using h c hc)
  rw [htw, if_neg (Nat.lt_irrefl s.length)]

theorem c10_unterminated_string_witness :
    (∀ c ∈ ['a', 'b'], c ≠ quoteChar) ∧
    nextToken [['#']] (quoteChar :: ['a', 'b']) =
      Except.ok (Token.Str (String.mk ['a', 'b']), []) :=
  ⟨by decide, c10_unterminated_string [['#']] ['a', 'b'] (by decide)⟩

set_option maxHeartbeats 1600000

/-- C9: the top-level bootstrap recognizer accepts the self-test syntax
text and its finalized output is exactly the assembly asserted in the
self-test: ADR A at column 8, label A at column 0, CLL X, paired BF/BT
with the generated labels A001 A002 A003, the label lines, and the
trailing R and END at column 8. -/
theorem c9_bootstrap_translation :
    (programB 24 (mInit c9input)).map (fun pr => (pr.1, generatedE pr.2)) =
      some (MRes.recognized, Except.ok c9expected) := by
  decide
